import Mathlib

/-!
# Verification of the saxskit fitting engine (`saxskit/saxs_fit.py`)

Shallow embedding of the SAXS fitting module: parameter dictionaries are
ordered association lists (Python `OrderedDict`), numeric values are `ℚ`
(exact rationals standing for the float values the code manipulates),
fallible code (Python `KeyError`) is `Except String`, and the external
collaborators (the scattering model `saxs_math.compute_saxs`, `numpy`'s
`log`/`sqrt`, the lmfit Nelder-Mead optimizer, the window-scan peak
primitive `peak_finder.peaks_by_window`) are abstracted as explicit
function parameters gathered in an `Extern` record, following the spec's
description of those boundaries.
-/

namespace Saxskit

/-- A Python dict mapping parameter keys to lists of values
(`OrderedDict` of `str -> list`), embedded as an ordered association list. -/
abbrev ParamDict (α : Type) : Type := List (String × List α)

/-- Python `d[k]` read access: first binding of key `k`. -/
def lookupA (k : String) : List (String × β) → Option β
  | [] => none
  | kv :: rest => if kv.1 = k then some kv.2 else lookupA k rest

/-- The key list of a dict (`d.keys()`). -/
def keysA (d : List (String × β)) : List String := d.map Prod.fst

/-- Python `d[k]` read that raises `KeyError` when the key is absent. -/
def exLookup (d : List (String × β)) (k : String) : Except String β :=
  match lookupA k d with
  | some v => Except.ok v
  | none => Except.error ("KeyError: " ++ k)

/-- The in-place element-wise overwrite of one value list performed by
`update_params` (`saxs_fit.py:41-43`): `old[i] = vals[i]` for every
`i < len(old)`; entries of `vals` beyond `len(old)` are dropped, entries of
`old` beyond `len(vals)` are kept. -/
def mergeVals : List α → List α → List α
  | [], old => old
  | _, [] => []
  | v :: vs, _ :: os => v :: mergeVals vs os

/-- Overwrite the binding of key `k` (which is present) element-wise with
`vals`, leaving every other binding unchanged. -/
def updateKey (d : List (String × List α)) (k : String) (vals : List α) :
    List (String × List α) :=
  d.map (fun kv => if kv.1 = k then (kv.1, mergeVals vals kv.2) else kv)

/-- Replace the value bound to a present key. -/
def replaceKey (d : List (String × List α)) (k : String) (vals : List α) :
    List (String × List α) :=
  d.map (fun kv => if kv.1 = k then (kv.1, vals) else kv)

/-- Python `d[k] = v` dict assignment: replace the binding if the key is
present, otherwise append a new binding at the end. -/
def setKey (d : List (String × List α)) (k : String) (vals : List α) :
    List (String × List α) :=
  if k ∈ keysA d then replaceKey d k vals
  else d ++ [(k, vals)]

/-- Python `d[k].append(v)` on a dict of lists (the key is present when the
code runs it; on an absent key the embedding leaves the dict unchanged where
Python would raise, a state unreachable in the uses below). -/
def appendKey (d : List (String × List α)) (k : String) (v : α) :
    List (String × List α) :=
  d.map (fun kv => if kv.1 = k then (kv.1, kv.2 ++ [v]) else kv)

/-- `update_params(p_old, p_new)` from `saxs_fit.py:38-44`: for each key of
`p_new` (raising `KeyError` when `p_old` lacks it, since the code reads
`len(p_old[k])`), overwrite `p_old[k]` element-wise up to `len(p_old[k])`. -/
def update_params (p_old : ParamDict α) : ParamDict α → Except String (ParamDict α)
  | [] => Except.ok p_old
  | kv :: rest =>
    match lookupA kv.1 p_old with
    | some _ => update_params (updateKey p_old kv.1 kv.2) rest
    | none => Except.error ("KeyError: " ++ kv.1)

/-- `param_defaults` table (`saxs_fit.py:14-24`), exact rationals for the
float literals. -/
def param_defaults : List (String × ℚ) :=
  [("I0_floor", 0), ("G_gp", 1/1000), ("rg_gp", 10), ("D_gp", 4),
   ("I0_sphere", 1/1000), ("r0_sphere", 20), ("sigma_sphere", 1/20),
   ("q_pkcenter", 1/10), ("I_pkcenter", 1), ("pk_hwhm", 1/1000)]

/-- `param_limits` table (`saxs_fit.py:26-36`); Python `None` (unbounded
side) is `none`. -/
def param_limits : List (String × (Option ℚ × Option ℚ)) :=
  [("I0_floor", (some 0, some 100)), ("G_gp", (some 0, none)),
   ("rg_gp", (some (1/10), some 1000)), ("D_gp", (some 0, some 4)),
   ("I0_sphere", (some 0, none)), ("r0_sphere", (some 1, some 1000)),
   ("sigma_sphere", (some 0, some (1/2))), ("q_pkcenter", (some 0, some 1)),
   ("I_pkcenter", (some 0, none)), ("pk_hwhm", (some (1/1000000), some (1/10)))]

/-- Modelled from the spec: the `parameter_keys` table of the `saxs_math`
module (imported by `saxs_fit.py` but not present under `src/`), the
"canonical parameter schema per population type" of spec §4.1 / §3: each
population type owns the parameter keys of its scatterer instances, and the
closed set of population types is `unidentified`, `guinier_porod`,
`spherical_normal`, `diffraction_peaks`. -/
def parameter_keys : List (String × List String) :=
  [("unidentified", []),
   ("guinier_porod", ["G_gp", "rg_gp", "D_gp"]),
   ("spherical_normal", ["I0_sphere", "r0_sphere", "sigma_sphere"]),
   ("diffraction_peaks", ["q_pkcenter", "I_pkcenter", "pk_hwhm"])]

/-- Modelled from the spec: `population_keys` of the `saxs_math` module —
the fixed closed set of population-type names (spec §3). -/
def population_keys : List String :=
  ["unidentified", "guinier_porod", "spherical_normal", "diffraction_peaks"]

/-- A population spec: population-type name to non-negative count. -/
abbrev Pops : Type := List (String × Nat)

/-- `Pops` dict read (`self.populations[k]`), raising `KeyError` if absent. -/
def popLookup (pops : Pops) (k : String) : Except String Nat :=
  match lookupA k pops with
  | some v => Except.ok v
  | none => Except.error ("KeyError: " ++ k)

/-- `SaxsFitter.default_params` (`saxs_fit.py:165-176`): empty dict when the
`unidentified` count is truthy, otherwise `I0_floor -> [0.]` followed by, for
each population entry with truthy count `v`, `count` copies of the default
value under each of the population's parameter keys (dict order = population
dict order). -/
def dpStepInner (n : Nat) (pd : ParamDict ℚ) (pk : String) :
    Except String (ParamDict ℚ) := do
  let dv ← exLookup param_defaults pk
  pure (setKey pd pk (List.replicate n dv))

/-- The body of the population loop of `default_params`
(`saxs_fit.py:171-175`): for a truthy count, bind every owned parameter key. -/
def dpStep (pd : ParamDict ℚ) (kv : String × Nat) : Except String (ParamDict ℚ) :=
  if kv.2 ≠ 0 then do
    let pks ← exLookup parameter_keys kv.1
    pks.foldlM (dpStepInner kv.2) pd
  else pure pd

def default_params (pops : Pops) : Except String (ParamDict ℚ) := do
  let u ← popLookup pops "unidentified"
  if u ≠ 0 then
    pure []
  else do
    let d0 ← exLookup param_defaults "I0_floor"
    pops.foldlM dpStep [("I0_floor", [d0])]

/-- The decimal digit character for `d < 10` (`'0'` has code 48). -/
def digitChar (d : Nat) : Char := Char.ofNat (48 + d)

/-- Fuel-bounded decimal rendering (structural recursion so that concrete
slot names compute by kernel reduction). -/
def natStrAux : Nat → Nat → List Char
  | 0, _ => []
  | fuel + 1, n =>
    if n < 10 then [digitChar n]
    else natStrAux fuel (n / 10) ++ [digitChar (n % 10)]

/-- Python `str(i)` for a non-negative integer: decimal rendering without
leading zeros, as a character list. -/
def natStrL (n : Nat) : List Char := natStrAux (n + 1) n

/-- The flat slot name `pkey + str(i)` used by `lmfit_params` and
`saxskit_params` (`saxs_fit.py:241,249`). -/
def slotName (k : String) (i : Nat) : String := k ++ String.mk (natStrL i)

/-- One flat optimizer slot, as added by `lmfp.add(...)`
(`saxs_fit.py:241-242`): a value, a `vary` flag, and `min`/`max` bounds
(`none` = unbounded side). -/
structure Slot where
  value : ℚ
  vary : Bool
  lo : Option ℚ
  hi : Option ℚ
deriving DecidableEq, Repr

/-- The slots contributed by one parameter key: for each index `i` below the
value-list length, slot `pkey+str(i)` with value `p[pkey][i]`,
`vary = not fp[pkey][i]` and bounds `pb[pkey][i]`. -/
def slotRow (k : String) (vals : List ℚ) (mask : List Bool)
    (bnds : List (Option ℚ × Option ℚ)) : List (String × Slot) :=
  (List.range vals.length).map (fun i =>
    (slotName k i,
     { value := vals.getD i 0, vary := !(mask.getD i false),
       lo := (bnds.getD i (none, none)).1, hi := (bnds.getD i (none, none)).2 }))

/-- The flat parameter list built by the loop of `saxs_fit.py:239-242` from
the three parallel schema-shaped dicts (`p`, `fp`, `pb` are built over the
same schema by construction, so the `fp[pkey][i]`/`pb[pkey][i]` reads
cannot miss; the embedding reads them with defaults). -/
def flatSlots : ParamDict ℚ → ParamDict Bool → ParamDict (Option ℚ × Option ℚ) →
    List (String × Slot)
  | [], _, _ => []
  | kv :: rest, fp, pb =>
    slotRow kv.1 kv.2 ((lookupA kv.1 fp).getD []) ((lookupA kv.1 pb).getD []) ++
      flatSlots rest fp pb

/-- Structural `mapM` for `Except`. -/
def exMapM (f : β → Except String γ) : List β → Except String (List γ)
  | [] => Except.ok []
  | x :: xs => do
    let y ← f x
    let ys ← exMapM f xs
    pure (y :: ys)

/-- The `if params is not None: ... update_params ...` idiom used for each
of the three override arguments (`saxs_fit.py:125-128,221-222,228-229,
235-236`). -/
def mergeOver (base : ParamDict α) : Option (ParamDict α) → Except String (ParamDict α)
  | none => Except.ok base
  | some d => update_params base d

/-- The all-`False` fixed-flag dict built over the default schema
(`saxs_fit.py:224-227`). -/
def maskFalse (dp : ParamDict ℚ) : ParamDict Bool :=
  dp.map (fun kv => (kv.1, kv.2.map (fun _ => false)))

/-- The default bounds dict built over the default schema
(`saxs_fit.py:231-234`): every entry of key `k` gets `param_limits[k]`. -/
def boundsDefault (dp : ParamDict ℚ) : Except String (ParamDict (Option ℚ × Option ℚ)) :=
  exMapM (fun kv => do
    let lim ← exLookup param_limits kv.1
    pure (kv.1, kv.2.map (fun _ => lim))) dp

/-- `SaxsFitter.lmfit_params` (`saxs_fit.py:218-243`): merge the initial
guess, the fixed-flags and the bounds each over their own default-schema
dict, then emit one named slot per (key, index). -/
def lmfit_params (pops : Pops) (params0 : Option (ParamDict ℚ))
    (fixed_params : Option (ParamDict Bool))
    (param_bounds : Option (ParamDict (Option ℚ × Option ℚ))) :
    Except String (List (String × Slot)) := do
  let dp ← default_params pops
  let p ← mergeOver dp params0
  let fp ← mergeOver (maskFalse dp) fixed_params
  let pb0 ← boundsDefault dp
  let pb ← mergeOver pb0 param_bounds
  pure (flatSlots p fp pb)

/-- `SaxsFitter.saxskit_params` (`saxs_fit.py:245-250`): rebuild a parameter
dict over the default schema, reading each slot `pkey+str(i)` back from the
flat representation (`KeyError` when a slot name is absent). -/
def slotRead (flat : List (String × Slot)) (k : String) (i : Nat) :
    Except String ℚ :=
  match lookupA (slotName k i) flat with
  | some s => Except.ok s.value
  | none => Except.error ("KeyError: " ++ slotName k i)

/-- One row of `saxskit_params`: read back every slot of the key. -/
def skRow (flat : List (String × Slot)) (kv : String × List ℚ) :
    Except String (String × List ℚ) := do
  let vals ← exMapM (slotRead flat kv.1) (List.range kv.2.length)
  pure (kv.1, vals)

def saxskit_params (pops : Pops) (flat : List (String × Slot)) :
    Except String (ParamDict ℚ) := do
  let dp ← default_params pops
  exMapM (skRow flat) dp

/-- Modelled from the spec: `lmfit.minimize` with Nelder-Mead (§4.3
OPTIMIZING) — the optimizer searches only over slots with `vary = true`
("fixed slots excluded from the search dimension"); `assign` abstracts the
value the search settles on for each varying slot, fixed slots keep their
value. The lmfit library is an external collaborator, not repository code. -/
def lmfMinimize (assign : String → ℚ) (flat : List (String × Slot)) :
    List (String × Slot) :=
  flat.map (fun ns => (ns.1, if ns.2.vary then { ns.2 with value := assign ns.1 } else ns.2))

/-- The external collaborators of the fitting core, abstracted as functions
(spec §2 and §6): `lg`/`sq` are `np.log`/`np.sqrt` on their domains,
`computeSaxs` is `saxs_math.compute_saxs` (the pure ScatteringModel
boundary), `pkWidth` is the quadratic width seed of §4.4 step 3c
(`standardize_array` + `np.polyfit`, returning the focal width before the
`* 0.5` rescale), `peaksByWindow` is `peak_finder.peaks_by_window`
(indices and confidences), and `optAssign`/`optSuccess` abstract the
Nelder-Mead search outcome. -/
structure Extern where
  lg : ℚ → ℚ
  sq : ℚ → ℚ
  computeSaxs : List ℚ → Pops → ParamDict ℚ → List ℚ
  pkWidth : List ℚ → List ℚ → ℚ → ℚ
  peaksByWindow : List ℚ → List ℚ → Nat → ℚ → List Nat × List ℚ
  optAssign : String → ℚ
  optSuccess : Bool

/-- `np.log`, domain-aware: a positive input yields the abstract log value;
zero or a negative input is a log-domain failure (`-inf`/`nan` poisoning the
downstream arithmetic), embedded as `none`. -/
def npLog (lg : ℚ → ℚ) (x : ℚ) : Option ℚ := if 0 < x then some (lg x) else none

/-- The state built by `SaxsFitter.__init__` (`saxs_fit.py:49-81`):
`idx_fit` marks points with positive measured intensity, `logI`/`dI` are
defined (`some`) exactly at those points (`nan` elsewhere). -/
structure SaxsFitter where
  populations : Pops
  q : List ℚ
  I : List ℚ
  idx_fit : List Bool
  logI : List (Option ℚ)
  dI : List (Option ℚ)

/-- `SaxsFitter.__init__`: split the `q_I` columns, build the fit mask, the
log-intensity array and the uncertainty array (given `dI`, or
`sqrt(I)` at masked points otherwise). -/
def mkSaxsFitter (ext : Extern) (q I : List ℚ) (pops : Pops)
    (dI : Option (List ℚ)) : SaxsFitter :=
  { populations := pops, q := q, I := I,
    idx_fit := I.map (fun x => decide (0 < x)),
    logI := I.map (fun x => if 0 < x then some (ext.lg x) else none),
    dI := match dI with
      | some l => l.map some
      | none => I.map (fun x => if 0 < x then some (ext.sq x) else none) }

/-- Boolean-mask array indexing `xs[mask]` of numpy. -/
def maskFilter (mask : List Bool) (xs : List β) : List β :=
  ((mask.zip xs).filter (fun p => p.1)).map Prod.snd

/-- Turn a list of possibly-poisoned (`nan`) values into a poisoned-or-clean
list: any `none` element poisons the whole result. -/
def allSome : List (Option β) → Option (List β)
  | [] => some []
  | o :: rest => do
    let v ← o
    let vs ← allSome rest
    pure (v :: vs)

/-- Modelled from the spec: `saxs_math.compute_chi2` (not under `src/`),
§4.2 steps 3 and 5 — the sum of squared residuals between the two
sequences. -/
def compute_chi2 (a b : List ℚ) : ℚ :=
  ((a.zip b).map (fun p => (p.1 - p.2) ^ 2)).sum

/-- Modelled from the spec: the error-weighted variant, §4.2 step 4 — each
squared residual weighted by `1/uncertainty²`. -/
def compute_chi2w (a b e : List ℚ) : ℚ :=
  (((a.zip b).zip e).map (fun p => (p.1.1 - p.1.2) ^ 2 / p.2 ^ 2)).sum

/-- `SaxsFitter.evaluate` (`saxs_fit.py:181-216`): compute the modeled
intensity, restrict everything to the fit mask, and return the (optionally
error-weighted) chi-square of the logarithms. The logarithm of the modeled
intensity is applied unguarded (the clamp at `saxs_fit.py:199` is commented
out), so a non-positive modeled intensity at a masked point poisons the
result (`none`). -/
def evaluate (ext : Extern) (f : SaxsFitter) (params : ParamDict ℚ)
    (error_weighted : Bool) : Option ℚ := do
  let Icomp := ext.computeSaxs f.q f.populations params
  let ic := maskFilter f.idx_fit Icomp
  let logIc ← allSome (ic.map (npLog ext.lg))
  let li ← allSome (maskFilter f.idx_fit f.logI)
  if error_weighted then do
    let di ← allSome (maskFilter f.idx_fit f.dI)
    pure (compute_chi2w logIc li di)
  else
    pure (compute_chi2 logIc li)

/-- The floor `1.E-12` of the disabled clamp at `saxs_fit.py:199`. -/
def clampFloor : ℚ := 1 / 1000000000000

/-- Definition following the spec's words (claim C6 / spec §7 DomainError):
the objective with the modeled intensity clamped to the small positive floor
before the logarithm, so evaluation never hits the log domain error. Stated
for comparison against the source's `evaluate`. -/
def evaluate_clamped (ext : Extern) (f : SaxsFitter) (params : ParamDict ℚ)
    (error_weighted : Bool) : Option ℚ := do
  let Icomp := ext.computeSaxs f.q f.populations params
  let ic := maskFilter f.idx_fit Icomp
  let logIc := ic.map (fun x => ext.lg (max x clampFloor))
  let li ← allSome (maskFilter f.idx_fit f.logI)
  if error_weighted then do
    let di ← allSome (maskFilter f.idx_fit f.dI)
    pure (compute_chi2w logIc li di)
  else
    pure (compute_chi2 logIc li)

/-- `np.mean` (division by zero on an empty list is junk-valued; the value
is only reported, never branched on). -/
def meanQ (l : List ℚ) : ℚ := l.sum / l.length

/-- `np.std`: square root (abstract `sq`) of the mean squared deviation. -/
def stdevQ (ext : Extern) (l : List ℚ) : ℚ :=
  ext.sq (meanQ (l.map (fun x => (x - meanQ l) ^ 2)))

/-- An entry of the fit report dict (`rpt`), `saxs_fit.py:139-148`. -/
inductive RVal where
  | bool (b : Bool)
  | num (x : Option ℚ)
  | q (x : ℚ)
deriving DecidableEq, Repr

/-- `SaxsFitter.fit` (`saxs_fit.py:83-163`): short-circuit on a truthy
`unidentified` count; otherwise merge the initial guess over the defaults,
record the initial objective, build the flat representation, run the
optimizer, convert its result back, and assemble the report
(`success`, `initial_objective`, `final_objective`, `fit_snr`). -/
def fit (ext : Extern) (f : SaxsFitter) (params0 : Option (ParamDict ℚ))
    (fixed_params : Option (ParamDict Bool))
    (param_limits0 : Option (ParamDict (Option ℚ × Option ℚ)))
    (error_weighted : Bool) :
    Except String (ParamDict ℚ × List (String × RVal)) := do
  let u ← popLookup f.populations "unidentified"
  if u ≠ 0 then
    pure ([], [])
  else do
    let dp ← default_params f.populations
    let params ← mergeOver dp params0
    let obj_init := evaluate ext f params error_weighted
    let lmfp ← lmfit_params f.populations (some params) fixed_params param_limits0
    let res := lmfMinimize ext.optAssign lmfp
    let p_opt ← saxskit_params f.populations res
    let skp ← saxskit_params f.populations res
    let fit_obj := evaluate ext f skp error_weighted
    let I_opt := ext.computeSaxs f.q f.populations skp
    let I_bg := (f.I.zip I_opt).map (fun p => p.1 - p.2)
    let snr := meanQ I_opt / stdevQ ext I_bg
    pure (p_opt,
      [("success", RVal.bool ext.optSuccess),
       ("initial_objective", RVal.num obj_init),
       ("final_objective", RVal.num fit_obj),
       ("fit_snr", RVal.q snr)])

/-- `np.argsort(vals)`: the index list sorted by ascending value (the
source's quicksort leaves tie order unspecified; a stable insertion sort is
one admissible order, and no claim below depends on the tie-break). -/
def argsortAsc (vals : List ℚ) : List Nat :=
  List.insertionSort (fun a b => vals.getD a 0 ≤ vals.getD b 0) (List.range vals.length)

/-- `np.argsort(pk_conf)[::-1]` (`saxs_fit.py:270`): candidate order of
descending confidence. -/
def argsortDesc (vals : List ℚ) : List Nat := (argsortAsc vals).reverse

/-- The loop body of `estimate_peak_params` (`saxs_fit.py:276-296`): while
fewer than `npks` peaks are seeded, append the candidate's `q`, a tenth of
its measured intensity, and half the quadratic focal width. -/
def pkStep (ext : Extern) (f : SaxsFitter) (npks : Nat) (pk_idx : List Nat)
    (st : ParamDict ℚ × Nat) (idx : Nat) : ParamDict ℚ × Nat :=
  if st.2 < npks then
    let j := pk_idx.getD idx 0
    let q_pk := f.q.getD j 0
    let I_pk := f.I.getD j 0 * (1/10)
    let w := ext.pkWidth f.q f.I q_pk
    (appendKey (appendKey (appendKey st.1 "q_pkcenter" q_pk)
        "I_pkcenter" I_pk) "pk_hwhm" (w * (1/2)),
     st.2 + 1)
  else st

/-- `SaxsFitter.estimate_peak_params` (`saxs_fit.py:264-297`): when the
`diffraction_peaks` count is truthy, reset the three peak-parameter lists
and fill them from the window-scan candidates in order of descending
confidence, stopping after `npks` peaks. -/
def estimate_peak_params (ext : Extern) (f : SaxsFitter)
    (params0 : Option (ParamDict ℚ)) : Except String (ParamDict ℚ) := do
  let params ← match params0 with
    | none => default_params f.populations
    | some ps => pure ps
  let npks ← popLookup f.populations "diffraction_peaks"
  if npks ≠ 0 then
    let pw := ext.peaksByWindow f.q f.I 20 0
    let conf_idx := argsortDesc pw.2
    let p1 := setKey (setKey (setKey params "q_pkcenter" []) "I_pkcenter" []) "pk_hwhm" []
    pure (conf_idx.foldl (pkStep ext f npks pw.1) (p1, 0)).1
  else
    pure params

/-- Decidable equality for `Except` results, used to evaluate the embedding
on closed inputs. -/
instance {ε α : Type} [DecidableEq ε] [DecidableEq α] : DecidableEq (Except ε α) :=
  fun a b =>
    match a, b with
    | Except.ok x, Except.ok y =>
      if h : x = y then isTrue (by rw [h])
      else isFalse (fun hc => h (by cases hc; rfl))
    | Except.error e1, Except.error e2 =>
      if h : e1 = e2 then isTrue (by rw [h])
      else isFalse (fun hc => h (by cases hc; rfl))
    | Except.ok _, Except.error _ => isFalse (fun hc => by cases hc)
    | Except.error _, Except.ok _ => isFalse (fun hc => by cases hc)

/-! ## Proof-side characterizations (definitions) -/

/-- The parameter rows contributed by one population entry: one row per
owned parameter key, each holding `count` copies of the key's default. -/
def popRow (kv : String × Nat) : ParamDict ℚ :=
  ((lookupA kv.1 parameter_keys).getD []).map
    (fun pk => (pk, List.replicate kv.2 ((lookupA pk param_defaults).getD 0)))

/-- The rows of `default_params` beyond the leading `I0_floor` row. -/
def dpBody (pops : Pops) : ParamDict ℚ :=
  ((pops.filter (fun kv => decide (kv.2 ≠ 0))).map popRow).flatten

/-- Decimal parser, a left inverse of `natStrL` used to prove slot names
collision-free. -/
def parseL (l : List Char) : Nat :=
  l.foldl (fun a c => 10 * a + (c.toNat - 48)) 0

/-- All canonical parameter keys: `I0_floor` plus every population's owned
keys. -/
def canonKeys : List String :=
  "I0_floor" :: (parameter_keys.map Prod.snd).flatten

/-- The dictionary effect of one executed iteration of the
`estimate_peak_params` loop (the `st.2 < npks` branch of `pkStep` without
the counter): append the candidate's seeds to the three peak rows. -/
def pkPush (ext : Extern) (f : SaxsFitter) (pk_idx : List Nat)
    (d : ParamDict ℚ) (idx : Nat) : ParamDict ℚ :=
  appendKey (appendKey (appendKey d "q_pkcenter" (f.q.getD (pk_idx.getD idx 0) 0))
      "I_pkcenter" (f.I.getD (pk_idx.getD idx 0) 0 * (1/10)))
    "pk_hwhm" (ext.pkWidth f.q f.I (f.q.getD (pk_idx.getD idx 0) 0) * (1/2))

/-! ## Concrete fixtures for witnesses and counterexamples -/

/-- A concrete external-collaborator record for evaluating the embedding on
closed inputs. -/
def extZ : Extern :=
  { lg := fun _ => 0, sq := fun _ => 0, computeSaxs := fun _ _ _ => [],
    pkWidth := fun _ _ _ => 3, peaksByWindow := fun _ _ _ _ => ([], []),
    optAssign := fun _ => 5, optSuccess := true }

/-- A fitter over a one-point spectrum whose population spec is entirely
`unidentified`. -/
def fitterU : SaxsFitter := mkSaxsFitter extZ [1] [1] [("unidentified", 2)] none

/-- A fitter over a one-point spectrum with no populations beyond the
global `I0_floor`. -/
def fitterZ : SaxsFitter := mkSaxsFitter extZ [1] [1] [("unidentified", 0)] (some [1])

/-- A fittable two-population spec used by concrete instances. -/
def popsGS : Pops :=
  [("unidentified", 0), ("guinier_porod", 2), ("spherical_normal", 1),
   ("diffraction_peaks", 0)]

/-- A parameter dict conforming to the default schema of `popsGS`, with
distinct values in every slot. -/
def psGS : ParamDict ℚ :=
  [("I0_floor", [7]), ("G_gp", [1, 2]), ("rg_gp", [3, 4]), ("D_gp", [5, 6]),
   ("I0_sphere", [8]), ("r0_sphere", [9]), ("sigma_sphere", [10])]

/-- A one-population Guinier-Porod spec. -/
def popsGP1 : Pops := [("unidentified", 0), ("guinier_porod", 1)]

/-- A fitter over `popsGP1` for fixed-parameter runs. -/
def fitterC5 : SaxsFitter := mkSaxsFitter extZ [1] [1] popsGP1 (some [1])

/-- External record whose scattering model reproduces the measured
intensity of a one-point spectrum (a noiseless self-fit). -/
def extSelf : Extern := { extZ with computeSaxs := fun _ _ _ => [1] }

/-- External record whose scattering model returns a negative intensity at
the single (masked) point. -/
def extNeg : Extern := { extZ with computeSaxs := fun _ _ _ => [-1] }

/-- A fitter over a one-point spectrum with positive measured intensity,
used with `extNeg`. -/
def fNeg : SaxsFitter := mkSaxsFitter extNeg [1] [1] [("unidentified", 0)] (some [1])

/-- External record whose window scan returns two candidates with equal
(tied) confidence. -/
def extTie : Extern := { extZ with peaksByWindow := fun _ _ _ _ => ([0, 1], [1, 1]) }

/-- A two-point spectrum expecting two diffraction peaks, used with
`extTie`. -/
def fTie : SaxsFitter :=
  mkSaxsFitter extTie [1, 2] [2, 3]
    [("unidentified", 0), ("diffraction_peaks", 2)] (some [1, 1])

/-- External record whose window scan returns three candidates with
distinct confidences, out of order. -/
def extPk2 : Extern := { extZ with peaksByWindow := fun _ _ _ _ => ([0, 2, 1], [1, 3, 2]) }

/-- A three-point spectrum expecting two diffraction peaks, used with
`extPk2`. -/
def fPk2 : SaxsFitter :=
  mkSaxsFitter extPk2 [1, 2, 3] [10, 20, 30]
    [("unidentified", 0), ("diffraction_peaks", 2)] (some [1, 1, 1])

-- end of definitions

/-! ## `Except` monad reduction lemmas -/

@[simp]
theorem ex_bind_ok {β γ : Type} (a : β) (f : β → Except String γ) :
    (Except.ok a : Except String β) >>= f = f a := rfl

@[simp]
theorem ex_bind_error {β γ : Type} (e : String) (f : β → Except String γ) :
    (Except.error e : Except String β) >>= f = Except.error e := rfl

@[simp]
theorem ex_pure_eq_ok {β : Type} (a : β) :
    (pure a : Except String β) = Except.ok a := rfl

@[simp]
theorem ex_map_ok {β γ : Type} (f : β → γ) (a : β) :
    (f <$> (Except.ok a : Except String β)) = Except.ok (f a) := rfl

@[simp]
theorem ex_map_error {β γ : Type} (f : β → γ) (e : String) :
    (f <$> (Except.error e : Except String β)) = Except.error e := rfl

/-! ## Basic dictionary lemmas -/

@[simp]
theorem keysA_nil {β : Type} : keysA ([] : List (String × β)) = [] := rfl

@[simp]
theorem keysA_cons {β : Type} (kv : String × β) (d : List (String × β)) :
    keysA (kv :: d) = kv.1 :: keysA d := rfl

@[simp]
theorem keysA_append {β : Type} (d1 d2 : List (String × β)) :
    keysA (d1 ++ d2) = keysA d1 ++ keysA d2 := by
  simp [keysA]

@[simp]
theorem lookupA_nil {β : Type} (k : String) : lookupA k ([] : List (String × β)) = none := rfl

@[simp]
theorem lookupA_cons {β : Type} (k : String) (kv : String × β) (d : List (String × β)) :
    lookupA k (kv :: d) = if kv.1 = k then some kv.2 else lookupA k d := rfl

theorem lookupA_eq_none {β : Type} {k : String} {d : List (String × β)}
    (h : k ∉ keysA d) : lookupA k d = none := by
  induction d with
  | nil => rfl
  | cons kv rest ih =>
    have h1 : ¬ kv.1 = k := fun he => h (by simp [he])
    have h2 : k ∉ keysA rest := fun hm => h (by simp [hm])
    simp [h1, ih h2]

theorem lookupA_isSome_of_mem {β : Type} {k : String} {d : List (String × β)}
    (h : k ∈ keysA d) : ∃ v, lookupA k d = some v := by
  induction d with
  | nil => simp at h
  | cons kv rest ih =>
    by_cases he : kv.1 = k
    · exact ⟨kv.2, by simp [he]⟩
    · have : k ∈ keysA rest := by
        rcases List.mem_cons.mp (by simpa using h) with h' | h'
        · exact absurd h'.symm he
        · exact h'
      rcases ih this with ⟨v, hv⟩
      exact ⟨v, by simp [he, hv]⟩

theorem mem_of_lookupA_eq_some {β : Type} {k : String} {d : List (String × β)}
    {v : β} (h : lookupA k d = some v) : k ∈ keysA d := by
  induction d with
  | nil => simp at h
  | cons kv rest ih =>
    by_cases he : kv.1 = k
    · simp [he]
    · simp only [lookupA_cons, if_neg he] at h
      simp [ih h]

theorem lookupA_append_some {β : Type} {k : String} {l1 l2 : List (String × β)}
    {v : β} (h : lookupA k l1 = some v) : lookupA k (l1 ++ l2) = some v := by
  induction l1 with
  | nil => simp at h
  | cons kv rest ih =>
    by_cases he : kv.1 = k
    · simp only [lookupA_cons, if_pos he] at h
      simp [he, h]
    · simp only [lookupA_cons, if_neg he] at h
      simpa [he] using ih h

theorem lookupA_append_none {β : Type} {k : String} {l1 l2 : List (String × β)}
    (h : lookupA k l1 = none) : lookupA k (l1 ++ l2) = lookupA k l2 := by
  induction l1 with
  | nil => rfl
  | cons kv rest ih =>
    by_cases he : kv.1 = k
    · simp [he] at h
    · simp only [lookupA_cons, if_neg he] at h
      simpa [he] using ih h

/-! ## `updateKey` / `setKey` / `appendKey` lemmas -/

@[simp]
theorem updateKey_nil {α : Type} (k : String) (vals : List α) :
    updateKey ([] : ParamDict α) k vals = [] := rfl

@[simp]
theorem updateKey_cons {α : Type} (kv : String × List α) (d : ParamDict α)
    (k : String) (vals : List α) :
    updateKey (kv :: d) k vals =
      (if kv.1 = k then (kv.1, mergeVals vals kv.2) else kv) :: updateKey d k vals := rfl

@[simp]
theorem replaceKey_nil {α : Type} (k : String) (vals : List α) :
    replaceKey ([] : ParamDict α) k vals = [] := rfl

@[simp]
theorem replaceKey_cons {α : Type} (kv : String × List α) (d : ParamDict α)
    (k : String) (vals : List α) :
    replaceKey (kv :: d) k vals =
      (if kv.1 = k then (kv.1, vals) else kv) :: replaceKey d k vals := rfl

@[simp]
theorem appendKey_nil {α : Type} (k : String) (v : α) :
    appendKey ([] : ParamDict α) k v = [] := rfl

@[simp]
theorem appendKey_cons {α : Type} (kv : String × List α) (d : ParamDict α)
    (k : String) (v : α) :
    appendKey (kv :: d) k v =
      (if kv.1 = k then (kv.1, kv.2 ++ [v]) else kv) :: appendKey d k v := rfl

@[simp]
theorem keysA_updateKey {α : Type} (d : ParamDict α) (k : String) (vals : List α) :
    keysA (updateKey d k vals) = keysA d := by
  induction d with
  | nil => rfl
  | cons kv rest ih =>
    rw [updateKey_cons]
    by_cases he : kv.1 = k
    · rw [if_pos he, keysA_cons, keysA_cons, ih]
    · rw [if_neg he, keysA_cons, keysA_cons, ih]

@[simp]
theorem keysA_replaceKey {α : Type} (d : ParamDict α) (k : String) (vals : List α) :
    keysA (replaceKey d k vals) = keysA d := by
  induction d with
  | nil => rfl
  | cons kv rest ih =>
    rw [replaceKey_cons]
    by_cases he : kv.1 = k
    · rw [if_pos he, keysA_cons, keysA_cons, ih]
    · rw [if_neg he, keysA_cons, keysA_cons, ih]

@[simp]
theorem keysA_appendKey {α : Type} (d : ParamDict α) (k : String) (v : α) :
    keysA (appendKey d k v) = keysA d := by
  induction d with
  | nil => rfl
  | cons kv rest ih =>
    rw [appendKey_cons]
    by_cases he : kv.1 = k
    · rw [if_pos he, keysA_cons, keysA_cons, ih]
    · rw [if_neg he, keysA_cons, keysA_cons, ih]

theorem lookupA_updateKey_self {α : Type} (d : ParamDict α) (k : String) (vals : List α) :
    lookupA k (updateKey d k vals) = (lookupA k d).map (mergeVals vals) := by
  induction d with
  | nil => rfl
  | cons kv rest ih =>
    rw [updateKey_cons]
    by_cases he : kv.1 = k
    · simp [he]
    · simp [he, ih]

theorem lookupA_updateKey_ne {α : Type} {d : ParamDict α} {k k' : String}
    (vals : List α) (h : k' ≠ k) :
    lookupA k' (updateKey d k vals) = lookupA k' d := by
  induction d with
  | nil => rfl
  | cons kv rest ih =>
    rw [updateKey_cons]
    by_cases he : kv.1 = k
    · have hkk : ¬ k = k' := fun hc => h hc.symm
      simp [he, hkk, ih]
    · by_cases he' : kv.1 = k'
      · simp [he, he', h]
      · simp [he, he', ih]

theorem lookupA_replaceKey_self {α : Type} {d : ParamDict α} {k : String}
    (vals : List α) (h : k ∈ keysA d) :
    lookupA k (replaceKey d k vals) = some vals := by
  induction d with
  | nil => simp at h
  | cons kv rest ih =>
    rw [replaceKey_cons]
    by_cases he : kv.1 = k
    · simp [he]
    · have : k ∈ keysA rest := by
        rcases List.mem_cons.mp (by simpa using h) with h' | h'
        · exact absurd h'.symm he
        · exact h'
      simp [he, ih this]

theorem lookupA_replaceKey_ne {α : Type} {d : ParamDict α} {k k' : String}
    (vals : List α) (h : k' ≠ k) :
    lookupA k' (replaceKey d k vals) = lookupA k' d := by
  induction d with
  | nil => rfl
  | cons kv rest ih =>
    rw [replaceKey_cons]
    by_cases he : kv.1 = k
    · have hkk : ¬ k = k' := fun hc => h hc.symm
      simp [he, hkk, ih]
    · by_cases he' : kv.1 = k'
      · simp [he, he', h]
      · simp [he, he', ih]

theorem updateKey_of_not_mem {α : Type} {d : ParamDict α} {k : String} (vals : List α)
    (h : k ∉ keysA d) : updateKey d k vals = d := by
  induction d with
  | nil => rfl
  | cons kv rest ih =>
    have h1 : ¬ kv.1 = k := fun he => h (by simp [he])
    have h2 : k ∉ keysA rest := fun hm => h (by simp [hm])
    rw [updateKey_cons, if_neg h1, ih h2]

theorem setKey_of_not_mem {α : Type} {d : ParamDict α} {k : String} (vals : List α)
    (h : k ∉ keysA d) : setKey d k vals = d ++ [(k, vals)] := by
  simp [setKey, h]

theorem lookupA_setKey_self {α : Type} (d : ParamDict α) (k : String) (vals : List α) :
    lookupA k (setKey d k vals) = some vals := by
  by_cases h : k ∈ keysA d
  · rw [setKey, if_pos h]
    exact lookupA_replaceKey_self vals h
  · rw [setKey_of_not_mem vals h, lookupA_append_none (lookupA_eq_none h)]
    simp

theorem lookupA_setKey_ne {α : Type} {d : ParamDict α} {k k' : String}
    (vals : List α) (h : k' ≠ k) :
    lookupA k' (setKey d k vals) = lookupA k' d := by
  by_cases hm : k ∈ keysA d
  · rw [setKey, if_pos hm]
    exact lookupA_replaceKey_ne vals h
  · rw [setKey_of_not_mem vals hm]
    cases hl : lookupA k' d with
    | some v => exact lookupA_append_some hl
    | none =>
      rw [lookupA_append_none hl]
      have : ¬ k = k' := fun he => h he.symm
      simp [this]

theorem lookupA_appendKey_self {α : Type} (d : ParamDict α) (k : String) (v : α) :
    lookupA k (appendKey d k v) = (lookupA k d).map (fun l => l ++ [v]) := by
  induction d with
  | nil => rfl
  | cons kv rest ih =>
    rw [appendKey_cons]
    by_cases he : kv.1 = k
    · simp [he]
    · simp [he, ih]

theorem lookupA_appendKey_ne {α : Type} {d : ParamDict α} {k k' : String}
    (v : α) (h : k' ≠ k) :
    lookupA k' (appendKey d k v) = lookupA k' d := by
  induction d with
  | nil => rfl
  | cons kv rest ih =>
    rw [appendKey_cons]
    by_cases he : kv.1 = k
    · have hkk : ¬ k = k' := fun hc => h hc.symm
      simp [he, hkk, ih]
    · by_cases he' : kv.1 = k'
      · simp [he, he', h]
      · simp [he, he', ih]

/-! ## `mergeVals` lemmas -/

@[simp]
theorem mergeVals_nil_left {α : Type} (o : List α) : mergeVals [] o = o := by
  cases o <;> rfl

@[simp]
theorem mergeVals_nil_right {α : Type} (v : List α) : mergeVals v [] = [] := by
  cases v <;> rfl

@[simp]
theorem mergeVals_cons_cons {α : Type} (v x : α) (vs os : List α) :
    mergeVals (v :: vs) (x :: os) = v :: mergeVals vs os := rfl

theorem mergeVals_length {α : Type} : ∀ (v o : List α), (mergeVals v o).length = o.length
  | [], _ => by simp
  | _ :: _, [] => by simp
  | v :: vs, x :: os => by simp [mergeVals_length vs os]

theorem mergeVals_getElem?_lt {α : Type} :
    ∀ {v o : List α} {i : Nat}, i < v.length → i < o.length →
      (mergeVals v o)[i]? = v[i]?
  | [], _, i, hv, _ => by simp at hv
  | _ :: _, [], i, _, ho => by simp at ho
  | v :: vs, x :: os, 0, _, _ => by simp
  | v :: vs, x :: os, i + 1, hv, ho => by
    simp only [mergeVals_cons_cons, List.getElem?_cons_succ]
    exact mergeVals_getElem?_lt (by simpa using hv) (by simpa using ho)

theorem mergeVals_eq_self {α : Type} :
    ∀ {v o : List α}, v.length = o.length → mergeVals v o = v
  | [], [], _ => rfl
  | [], _ :: _, h => by simp at h
  | _ :: _, [], h => by simp at h
  | v :: vs, x :: os, h => by
    simp only [mergeVals_cons_cons, List.cons.injEq, true_and]
    exact mergeVals_eq_self (by simpa using h)

/-! ## `update_params` lemmas -/

@[simp]
theorem update_params_nil {α : Type} (d : ParamDict α) :
    update_params d ([] : ParamDict α) = Except.ok d := rfl

theorem update_params_cons_some {α : Type} {d : ParamDict α} {kv : String × List α}
    (rest : ParamDict α) {w : List α} (h : lookupA kv.1 d = some w) :
    update_params d (kv :: rest) = update_params (updateKey d kv.1 kv.2) rest := by
  simp [update_params, h]

theorem update_params_cons_none {α : Type} {d : ParamDict α} {kv : String × List α}
    (rest : ParamDict α) (h : lookupA kv.1 d = none) :
    update_params d (kv :: rest) = Except.error ("KeyError: " ++ kv.1) := by
  simp [update_params, h]

/-- A transitivity helper for shape relations between dicts. -/
theorem forall₂_trans_of {β : Type} {R : β → β → Prop}
    (ht : ∀ a b c, R a b → R b c → R a c) :
    ∀ {l1 l2 l3 : List β}, List.Forall₂ R l1 l2 → List.Forall₂ R l2 l3 →
      List.Forall₂ R l1 l3 := by
  intro l1 l2 l3 h12 h23
  induction h12 generalizing l3 with
  | nil => cases h23; exact List.Forall₂.nil
  | cons hab htail ih =>
    cases h23 with
    | cons hbc htail' => exact List.Forall₂.cons (ht _ _ _ hab hbc) (ih htail')

/-- One `updateKey` step preserves the row-wise shape (keys and lengths). -/
theorem updateKey_forall₂ {α : Type} (d : ParamDict α) (k : String) (vals : List α) :
    List.Forall₂ (fun a b => a.1 = b.1 ∧ a.2.length = b.2.length) d (updateKey d k vals) := by
  unfold updateKey
  rw [List.forall₂_map_right_iff]
  refine List.forall₂_same.mpr (fun kv _ => ?_)
  by_cases he : kv.1 = k
  · simp [he, mergeVals_length]
  · simp [he]

/-- `update_params` preserves the row-wise shape of its base dict. -/
theorem update_params_forall₂ {α : Type} :
    ∀ {ps d r : ParamDict α}, update_params d ps = Except.ok r →
      List.Forall₂ (fun a b => a.1 = b.1 ∧ a.2.length = b.2.length) d r := by
  intro ps
  induction ps with
  | nil =>
    intro d r h
    simp only [update_params_nil, Except.ok.injEq] at h
    subst h
    exact List.forall₂_same.mpr (fun x _ => ⟨rfl, rfl⟩)
  | cons kv rest ih =>
    intro d r h
    cases hl : lookupA kv.1 d with
    | some w =>
      rw [update_params_cons_some rest hl] at h
      exact forall₂_trans_of
        (fun a b c hab hbc => ⟨hab.1.trans hbc.1, hab.2.trans hbc.2⟩)
        (updateKey_forall₂ d kv.1 kv.2) (ih h)
    | none =>
      rw [update_params_cons_none rest hl] at h
      exact absurd h (by simp)

theorem keysA_of_forall₂ {α : Type} {d r : ParamDict α}
    (h : List.Forall₂ (fun a b => a.1 = b.1 ∧ a.2.length = b.2.length) d r) :
    keysA r = keysA d := by
  induction h with
  | nil => rfl
  | cons hab htail ih => simp [keysA] at ih ⊢; exact ⟨hab.1.symm, ih⟩

theorem lookup_len_of_forall₂ {α : Type} {d r : ParamDict α}
    (h : List.Forall₂ (fun a b => a.1 = b.1 ∧ a.2.length = b.2.length) d r)
    (k : String) :
    (lookupA k r).map List.length = (lookupA k d).map List.length := by
  induction h with
  | nil => rfl
  | cons hab htail ih =>
    rename_i a b l1 l2
    by_cases he : a.1 = k
    · simp [← hab.1, he, hab.2]
    · have he' : ¬ b.1 = k := fun hc => he (hab.1 ▸ hc)
      simp [he, he', ih]

/-- Keys of `p_new` that are absent from it are untouched by the merge. -/
theorem lookupA_update_params_not_mem {α : Type} :
    ∀ {ps d r : ParamDict α} {k : String}, update_params d ps = Except.ok r →
      k ∉ keysA ps → lookupA k r = lookupA k d := by
  intro ps
  induction ps with
  | nil =>
    intro d r k h _
    simp only [update_params_nil, Except.ok.injEq] at h
    subst h; rfl
  | cons kv rest ih =>
    intro d r k h hk
    have h1 : ¬ kv.1 = k := fun he => hk (by simp [he])
    have h2 : k ∉ keysA rest := fun hm => hk (by simp [hm])
    cases hl : lookupA kv.1 d with
    | some w =>
      rw [update_params_cons_some rest hl] at h
      rw [ih h h2, lookupA_updateKey_ne kv.2 (fun he => h1 he.symm)]
    | none =>
      rw [update_params_cons_none rest hl] at h
      exact absurd h (by simp)

/-- Merged value of a key of `p_new`: the base value element-wise
overwritten by the override values. -/
theorem lookupA_update_params_mem {α : Type} :
    ∀ {ps d r : ParamDict α} {k : String} {vo : List α},
      update_params d ps = Except.ok r → (keysA ps).Nodup →
      lookupA k ps = some vo →
      lookupA k r = (lookupA k d).map (mergeVals vo) := by
  intro ps
  induction ps with
  | nil => intro d r k vo _ _ hvo; simp at hvo
  | cons kv rest ih =>
    intro d r k vo h hnd hvo
    rw [keysA_cons] at hnd
    have hnd1 : kv.1 ∉ keysA rest := (List.nodup_cons.mp hnd).1
    have hnd2 : (keysA rest).Nodup := (List.nodup_cons.mp hnd).2
    cases hl : lookupA kv.1 d with
    | some w =>
      rw [update_params_cons_some rest hl] at h
      by_cases he : kv.1 = k
      · subst he
        have hvo' : kv.2 = vo := by simpa using hvo
        subst hvo'
        rw [lookupA_update_params_not_mem h hnd1, lookupA_updateKey_self]
      · simp only [lookupA_cons, if_neg he] at hvo
        rw [ih h hnd2 hvo, lookupA_updateKey_ne kv.2 (fun hc => he hc.symm)]
    | none =>
      rw [update_params_cons_none rest hl] at h
      exact absurd h (by simp)

/-- The merge succeeds whenever every override key is a base key. -/
theorem update_params_isOk {α : Type} :
    ∀ {ps d : ParamDict α}, (∀ k ∈ keysA ps, k ∈ keysA d) →
      ∃ r, update_params d ps = Except.ok r := by
  intro ps
  induction ps with
  | nil => intro d _; exact ⟨d, rfl⟩
  | cons kv rest ih =>
    intro d hsub
    have hmem : kv.1 ∈ keysA d := hsub kv.1 (by simp)
    rcases lookupA_isSome_of_mem hmem with ⟨w, hw⟩
    have hsub' : ∀ k ∈ keysA rest, k ∈ keysA (updateKey d kv.1 kv.2) := by
      intro k hk
      rw [keysA_updateKey]
      exact hsub k (by simp [hk])
    rcases ih hsub' with ⟨r, hr⟩
    exact ⟨r, by rw [update_params_cons_some rest hw]; exact hr⟩

/-- Prepending a row whose key the override does not mention commutes with
the merge. -/
theorem update_params_cons_left {α : Type} :
    ∀ {ps d : ParamDict α} {a : String × List α}, a.1 ∉ keysA ps →
      update_params (a :: d) ps = (update_params d ps).map (fun r => a :: r) := by
  intro ps
  induction ps with
  | nil => intro d a _; rfl
  | cons kv rest ih =>
    intro d a ha
    have h1 : ¬ kv.1 = a.1 := fun he => ha (by simp [he.symm])
    have h2 : a.1 ∉ keysA rest := fun hm => ha (by simp [hm])
    have hne : ¬ a.1 = kv.1 := fun he => h1 he.symm
    have hla : lookupA kv.1 (a :: d) = lookupA kv.1 d := by
      simp [hne]
    cases hl : lookupA kv.1 d with
    | some w =>
      rw [update_params_cons_some rest (hla.trans hl),
        update_params_cons_some rest hl]
      have : updateKey (a :: d) kv.1 kv.2 = a :: updateKey d kv.1 kv.2 := by
        rw [updateKey_cons, if_neg (fun he : a.1 = kv.1 => h1 he.symm)]
      rw [this]
      exact ih h2
    | none =>
      rw [update_params_cons_none rest (hla.trans hl),
        update_params_cons_none rest hl]
      rfl

/-- Merging an override that has exactly the base's keys and lengths
replaces the base entirely: `update_params d ps = ps`. -/
theorem update_params_conform {α : Type} :
    ∀ {d ps : ParamDict α},
      List.Forall₂ (fun a b => a.1 = b.1 ∧ a.2.length = b.2.length) d ps →
      (keysA d).Nodup →
      update_params d ps = Except.ok ps := by
  intro d ps hf
  induction hf with
  | nil => intro _; rfl
  | cons hab htail ih =>
    rename_i a b d' ps'
    intro hnd
    rw [keysA_cons] at hnd
    have hnd1 : a.1 ∉ keysA d' := (List.nodup_cons.mp hnd).1
    have hnd2 : (keysA d').Nodup := (List.nodup_cons.mp hnd).2
    have hkeys : keysA ps' = keysA d' := keysA_of_forall₂ htail
    have hla : lookupA b.1 (a :: d') = some a.2 := by simp [hab.1]
    rw [update_params_cons_some ps' hla]
    have hupd : updateKey (a :: d') b.1 b.2 = b :: d' := by
      rw [updateKey_cons, if_pos hab.1,
        mergeVals_eq_self hab.2.symm,
        updateKey_of_not_mem b.2 (hab.1 ▸ hnd1)]
      have : (a.1, b.2) = b := by
        rcases b with ⟨b1, b2⟩
        simp [hab.1]
      rw [this]
    rw [hupd]
    have hb1 : b.1 ∉ keysA ps' := by
      rw [hkeys, ← hab.1]
      exact hnd1
    rw [update_params_cons_left hb1, ih hnd2]
    rfl

/-! ## Claim C1 -/

/-- C1: for every population spec whose `unidentified` count is nonzero,
`SaxsFitter.fit` returns a pair of two empty dicts immediately, for all
values of the `params`, `fixed_params`, `param_limits` and `error_weighted`
arguments (and any optimizer/scattering-model behavior): no optimization is
attempted. -/
theorem claim_C1 (ext : Extern) (f : SaxsFitter)
    (params0 : Option (ParamDict ℚ)) (fixed_params : Option (ParamDict Bool))
    (param_limits0 : Option (ParamDict (Option ℚ × Option ℚ)))
    (error_weighted : Bool) (n : Nat)
    (hu : lookupA "unidentified" f.populations = some n) (hn : n ≠ 0) :
    fit ext f params0 fixed_params param_limits0 error_weighted =
      Except.ok ([], []) := by
  unfold fit
  rw [show popLookup f.populations "unidentified" = Except.ok n by simp [popLookup, hu]]
  simp only [Bind.bind, Except.bind]
  simp [hn, Pure.pure, Except.pure]

/-- Witness for C1 at a concrete fitter with `unidentified = 2`. -/
theorem claim_C1_witness :
    fit extZ fitterU none none none true = Except.ok ([], []) :=
  claim_C1 extZ fitterU none none none true 2 (by decide) (by decide)

/-! ## Claim C2 -/

/-- C2 (code bug): an override key absent from the base dict is *not*
silently ignored — `update_params` looks up `p_old[k]` first and raises
`KeyError` (contradicting the documented leniency of `SaxsFitter.fit`,
`saxs_fit.py:99-100`), and `fit` propagates that error when the user's
initial guess mentions a key outside the default schema. -/
theorem claim_C2 :
    update_params [("I0_floor", ([0] : List ℚ))] [("G_gp", [1])] =
      Except.error "KeyError: G_gp" ∧
    fit extZ fitterZ (some [("G_gp", [1])]) none none true =
      Except.error "KeyError: G_gp" := by
  constructor
  · rfl
  · rfl

/-! ## Claim C3 -/

/-- C3: when every override key occurs in the base, the merge succeeds and
returns a dict with exactly the base's key set and per-key lengths; at every
(key, index) present in both, the result holds the override's value; the
override's entries beyond the base length are dropped (the lengths stay the
base's). -/
theorem claim_C3 {α : Type} (base ov : ParamDict α)
    (hsub : ∀ k ∈ keysA ov, k ∈ keysA base)
    (hnd : (keysA ov).Nodup) :
    ∃ r, update_params base ov = Except.ok r ∧
      keysA r = keysA base ∧
      (∀ k, (lookupA k r).map List.length = (lookupA k base).map List.length) ∧
      (∀ k vo vb, lookupA k ov = some vo → lookupA k base = some vb →
        ∀ i, i < vo.length → i < vb.length →
          ∃ vr, lookupA k r = some vr ∧ vr[i]? = vo[i]?) := by
  rcases update_params_isOk hsub with ⟨r, hr⟩
  have hf := update_params_forall₂ hr
  refine ⟨r, hr, keysA_of_forall₂ hf, lookup_len_of_forall₂ hf, ?_⟩
  intro k vo vb hvo hvb i hio hib
  have hm := lookupA_update_params_mem hr hnd hvo
  rw [hvb] at hm
  exact ⟨mergeVals vo vb, by simpa using hm, mergeVals_getElem?_lt hio hib⟩

/-- Witness for C3: a two-key base, an override with a longer value list. -/
theorem claim_C3_witness :
    ∃ r, update_params [("I0_floor", ([1, 2] : List ℚ)), ("G_gp", [3])]
          [("I0_floor", [9, 8, 7])] = Except.ok r ∧
      keysA r = keysA [("I0_floor", ([1, 2] : List ℚ)), ("G_gp", [3])] ∧
      (∀ k, (lookupA k r).map List.length =
        (lookupA k [("I0_floor", ([1, 2] : List ℚ)), ("G_gp", [3])]).map List.length) ∧
      (∀ k vo vb, lookupA k [("I0_floor", ([9, 8, 7] : List ℚ))] = some vo →
        lookupA k [("I0_floor", ([1, 2] : List ℚ)), ("G_gp", [3])] = some vb →
        ∀ i, i < vo.length → i < vb.length →
          ∃ vr, lookupA k r = some vr ∧ vr[i]? = vo[i]?) :=
  claim_C3 [("I0_floor", [1, 2]), ("G_gp", [3])] [("I0_floor", [9, 8, 7])]
    (by decide) (by decide)

/-! ## `default_params` structure (claim C7) -/

theorem dpBody_nil : dpBody [] = [] := rfl

theorem dpBody_cons (kv : String × Nat) (rest : Pops) :
    dpBody (kv :: rest) =
      if kv.2 ≠ 0 then popRow kv ++ dpBody rest else dpBody rest := by
  by_cases h : kv.2 ≠ 0 <;> simp [dpBody, List.filter_cons, h]

theorem keysA_popRow (kv : String × Nat) :
    keysA (popRow kv) = (lookupA kv.1 parameter_keys).getD [] := by
  simp [popRow, keysA, List.map_map, Function.comp_def]

theorem lookupA_map_self {β : Type} (g : String → β) :
    ∀ {pks : List String} {pk : String}, pk ∈ pks →
      lookupA pk (pks.map (fun x => (x, g x))) = some (g pk) := by
  intro pks
  induction pks with
  | nil => intro pk h; simp at h
  | cons x rest ih =>
    intro pk h
    by_cases he : x = pk
    · subst he; simp
    · rcases List.mem_cons.mp h with h' | h'
      · exact absurd h'.symm he
      · simp [he, ih h']

theorem lookupA_popRow_self {kv : String × Nat} {pk : String}
    (h : pk ∈ (lookupA kv.1 parameter_keys).getD []) :
    lookupA pk (popRow kv) =
      some (List.replicate kv.2 ((lookupA pk param_defaults).getD 0)) :=
  lookupA_map_self _ h

/-- Table fact: each population's parameter-key row has no duplicates. -/
theorem parameter_keys_rows_nodup :
    ∀ p ∈ keysA parameter_keys, ((lookupA p parameter_keys).getD []).Nodup := by
  decide

/-- Table fact: every owned parameter key appears in `param_defaults`. -/
theorem parameter_keys_rows_sub :
    ∀ p ∈ keysA parameter_keys,
      ∀ pk ∈ (lookupA p parameter_keys).getD [], pk ∈ keysA param_defaults := by
  decide

/-- Table fact: `I0_floor` is owned by no population. -/
theorem popRow_no_I0 :
    ∀ p ∈ keysA parameter_keys, "I0_floor" ∉ (lookupA p parameter_keys).getD [] := by
  decide

/-- Table fact: distinct populations own disjoint parameter keys. -/
theorem popRow_disjoint :
    ∀ p1 ∈ keysA parameter_keys, ∀ p2 ∈ keysA parameter_keys, p1 ≠ p2 →
      ∀ pk ∈ (lookupA p1 parameter_keys).getD [],
        pk ∉ (lookupA p2 parameter_keys).getD [] := by
  decide

theorem dpStepInner_ok {pk : String} {dv : ℚ} (n : Nat) (pd : ParamDict ℚ)
    (hdv : lookupA pk param_defaults = some dv) :
    dpStepInner n pd pk = Except.ok (setKey pd pk (List.replicate n dv)) := by
  simp [dpStepInner, exLookup, hdv]

/-- The inner key loop of `default_params` appends one fresh row per key. -/
theorem pk_fold_ok (n : Nat) :
    ∀ (pks : List String) (pd : ParamDict ℚ),
      pks.Nodup → (∀ pk ∈ pks, pk ∉ keysA pd) →
      (∀ pk ∈ pks, pk ∈ keysA param_defaults) →
      pks.foldlM (dpStepInner n) pd =
        Except.ok (pd ++ pks.map
          (fun pk => (pk, List.replicate n ((lookupA pk param_defaults).getD 0)))) := by
  intro pks
  induction pks with
  | nil => intro pd _ _ _; rw [List.foldlM_nil]; simp
  | cons pk rest ih =>
    intro pd hnd hfresh hsub
    rcases lookupA_isSome_of_mem (hsub pk (by simp)) with ⟨dv, hdv⟩
    rw [List.foldlM_cons, dpStepInner_ok n pd hdv, ex_bind_ok,
      setKey_of_not_mem _ (hfresh pk (by simp))]
    have hrest := ih (pd ++ [(pk, List.replicate n dv)])
      (List.nodup_cons.mp hnd).2
      (fun pk' hpk' => by
        have h1 : pk' ∉ keysA pd := hfresh pk' (by simp [hpk'])
        have h2 : pk' ≠ pk := fun he => (List.nodup_cons.mp hnd).1 (he ▸ hpk')
        simp [h1, h2])
      (fun pk' hpk' => hsub pk' (by simp [hpk']))
    rw [hrest]
    simp [hdv]

theorem dpStep_ok_zero {kv : String × Nat} (pd : ParamDict ℚ) (h : kv.2 = 0) :
    dpStep pd kv = Except.ok pd := by
  simp [dpStep, h]

/-- One population step appends its full row block. -/
theorem dpStep_ok_active {kv : String × Nat} (pd : ParamDict ℚ)
    (h2 : kv.2 ≠ 0) (hcanon : kv.1 ∈ keysA parameter_keys)
    (hfresh : ∀ pk ∈ keysA (popRow kv), pk ∉ keysA pd) :
    dpStep pd kv = Except.ok (pd ++ popRow kv) := by
  rcases lookupA_isSome_of_mem hcanon with ⟨pks, hpks⟩
  have hrow : keysA (popRow kv) = pks := by rw [keysA_popRow, hpks]; rfl
  have hstep : exLookup parameter_keys kv.1 = Except.ok pks := by
    simp [exLookup, hpks]
  have hinner := pk_fold_ok kv.2 pks pd
    (by have := parameter_keys_rows_nodup kv.1 hcanon; rwa [hpks] at this)
    (fun pk hpk => hfresh pk (by rw [hrow]; exact hpk))
    (fun pk hpk => parameter_keys_rows_sub kv.1 hcanon pk (by rw [hpks]; exact hpk))
  have hrowval : pks.map
      (fun pk => (pk, List.replicate kv.2 ((lookupA pk param_defaults).getD 0))) =
      popRow kv := by
    simp [popRow, hpks]
  rw [dpStep, if_pos h2, hstep, ex_bind_ok, hinner, hrowval]

/-- The outer population loop of `default_params` appends the rows of each
active population. -/
theorem dp_fold_ok :
    ∀ (l : Pops) (pd : ParamDict ℚ),
      (∀ kv ∈ l, kv.1 ∈ keysA parameter_keys) →
      (∀ kv ∈ l, ∀ pk ∈ keysA (popRow kv), pk ∉ keysA pd) →
      List.Pairwise (fun kv1 kv2 =>
        ∀ pk ∈ keysA (popRow kv1), pk ∉ keysA (popRow kv2)) l →
      l.foldlM dpStep pd = Except.ok (pd ++ dpBody l) := by
  intro l
  induction l with
  | nil => intro pd _ _ _; rw [List.foldlM_nil, dpBody_nil, List.append_nil]; rfl
  | cons kv rest ih =>
    intro pd hcanon hfresh hpair
    rw [List.foldlM_cons, dpBody_cons]
    by_cases h2 : kv.2 ≠ 0
    · rw [dpStep_ok_active pd h2 (hcanon kv (by simp)) (hfresh kv (by simp)),
        ex_bind_ok, if_pos h2]
      have hnext := ih (pd ++ popRow kv)
        (fun kv' hkv' => hcanon kv' (by simp [hkv']))
        (fun kv' hkv' pk hpk => by
          have hp1 : pk ∉ keysA pd := hfresh kv' (by simp [hkv']) pk hpk
          have hp3 : pk ∉ keysA (popRow kv) := by
            intro hc
            exact (List.pairwise_cons.mp hpair).1 kv' hkv' pk hc hpk
          simp [hp1, hp3])
        (List.pairwise_cons.mp hpair).2
      rw [hnext, List.append_assoc]
    · push_neg at h2
      rw [dpStep_ok_zero pd h2, ex_bind_ok, if_neg (by simp [h2])]
      exact ih pd (fun kv' hkv' => hcanon kv' (by simp [hkv']))
        (fun kv' hkv' pk hpk => hfresh kv' (by simp [hkv']) pk hpk)
        (List.pairwise_cons.mp hpair).2

/-- The pairwise row-disjointness needed by `dp_fold_ok`, derived from
distinct canonical population names. -/
theorem pops_pairwise_disjoint {pops : Pops}
    (hcanon : ∀ kv ∈ pops, kv.1 ∈ keysA parameter_keys)
    (hnd : (keysA pops).Nodup) :
    List.Pairwise (fun kv1 kv2 =>
      ∀ pk ∈ keysA (popRow kv1), pk ∉ keysA (popRow kv2)) pops := by
  have hp : List.Pairwise (fun kv1 kv2 : String × Nat => kv1.1 ≠ kv2.1) pops :=
    List.pairwise_map.mp hnd
  refine hp.imp_of_mem (fun ha hb hne pk hpk1 hpk2 => ?_)
  rw [keysA_popRow] at hpk1 hpk2
  exact popRow_disjoint _ (hcanon _ ha) _ (hcanon _ hb) hne pk hpk1 hpk2

/-- `default_params` on an unfittable (`unidentified`) spec. -/
theorem default_params_unidentified {pops : Pops} {n : Nat}
    (hu : lookupA "unidentified" pops = some n) (hn : n ≠ 0) :
    default_params pops = Except.ok [] := by
  unfold default_params
  rw [show popLookup pops "unidentified" = Except.ok n by simp [popLookup, hu],
    ex_bind_ok, if_pos hn]
  rfl

/-- Explicit form of `default_params` on a fittable canonical spec. -/
theorem default_params_explicit {pops : Pops}
    (hu : lookupA "unidentified" pops = some 0)
    (hcanon : ∀ kv ∈ pops, kv.1 ∈ keysA parameter_keys)
    (hnd : (keysA pops).Nodup) :
    default_params pops = Except.ok (("I0_floor", [0]) :: dpBody pops) := by
  unfold default_params
  rw [show popLookup pops "unidentified" = Except.ok 0 by simp [popLookup, hu],
    ex_bind_ok, if_neg (by simp),
    show exLookup param_defaults "I0_floor" = Except.ok 0 from rfl, ex_bind_ok]
  have hmain := dp_fold_ok pops [("I0_floor", [0])] hcanon
    (fun kv hkv pk hpk => by
      rw [keysA_popRow] at hpk
      intro hc
      have hpk0 : pk = "I0_floor" := by simpa [keysA] using hc
      exact popRow_no_I0 kv.1 (hcanon kv hkv) (hpk0 ▸ hpk))
    (pops_pairwise_disjoint hcanon hnd)
  simpa using hmain

/-- Key lookup in the body rows: an active population's parameter key is
bound to its own row. -/
theorem lookupA_dpBody :
    ∀ {pops : Pops} {kv : String × Nat} {pk : String},
      (∀ kv' ∈ pops, kv'.1 ∈ keysA parameter_keys) → (keysA pops).Nodup →
      kv ∈ pops → kv.2 ≠ 0 → pk ∈ keysA (popRow kv) →
      lookupA pk (dpBody pops) = lookupA pk (popRow kv) := by
  intro pops
  induction pops with
  | nil => intro kv pk _ _ hmem _ _; simp at hmem
  | cons kv0 rest ih =>
    intro kv pk hcanon hnd hmem h2 hpk
    rw [dpBody_cons]
    rcases List.mem_cons.mp hmem with he | hmem'
    · subst he
      rw [if_pos h2]
      rcases lookupA_isSome_of_mem hpk with ⟨v, hv⟩
      rw [lookupA_append_some hv, hv]
    · have hk1 : kv.1 ∈ keysA rest := List.mem_map_of_mem Prod.fst hmem'
      have hne : kv0.1 ≠ kv.1 := by
        rw [keysA_cons] at hnd
        exact fun he => (List.nodup_cons.mp hnd).1 (he ▸ hk1)
      have htail := ih (fun kv' hkv' => hcanon kv' (by simp [hkv']))
        (by rw [keysA_cons] at hnd; exact (List.nodup_cons.mp hnd).2)
        hmem' h2 hpk
      by_cases h0 : kv0.2 ≠ 0
      · rw [if_pos h0]
        have hnone : lookupA pk (popRow kv0) = none := by
          apply lookupA_eq_none
          rw [keysA_popRow]
          rw [keysA_popRow] at hpk
          exact popRow_disjoint _ (hcanon kv hmem) _ (hcanon kv0 (by simp))
            (fun he => hne he.symm) pk hpk
        rw [lookupA_append_none hnone, htail]
      · rw [if_neg h0]
        exact htail

/-! ## Claim C7 -/

/-- C7: on a fittable spec, `default_params` returns a dict with `I0_floor`
bound to the length-1 list `[0.]` and, for each population with nonzero
count, `count` copies of the owned default under each owned key (and exactly
those rows); on a spec with nonzero `unidentified` count it returns the
empty dict. -/
theorem claim_C7 (pops : Pops)
    (hcanon : ∀ kv ∈ pops, kv.1 ∈ keysA parameter_keys)
    (hnd : (keysA pops).Nodup) :
    (∀ n, lookupA "unidentified" pops = some n → n ≠ 0 →
      default_params pops = Except.ok []) ∧
    (lookupA "unidentified" pops = some 0 →
      default_params pops = Except.ok (("I0_floor", [0]) :: dpBody pops) ∧
      lookupA "I0_floor" (("I0_floor", ([0] : List ℚ)) :: dpBody pops) = some [0] ∧
      (∀ kv ∈ pops, kv.2 ≠ 0 → ∀ pk ∈ (lookupA kv.1 parameter_keys).getD [],
        lookupA pk (("I0_floor", [0]) :: dpBody pops) =
          some (List.replicate kv.2 ((lookupA pk param_defaults).getD 0)))) := by
  constructor
  · intro n hu hn
    exact default_params_unidentified hu hn
  · intro hu
    refine ⟨default_params_explicit hu hcanon hnd, by simp, ?_⟩
    intro kv hkv h2 pk hpk
    have hpkI : ¬ ("I0_floor" = pk) := by
      intro he
      exact popRow_no_I0 kv.1 (hcanon kv hkv) (he ▸ hpk)
    rw [lookupA_cons, if_neg hpkI,
      lookupA_dpBody hcanon hnd hkv h2 (by rw [keysA_popRow]; exact hpk),
      lookupA_popRow_self hpk]

/-- Witness for C7 at the concrete spec `popsGS`. -/
theorem claim_C7_witness :
    (∀ n, lookupA "unidentified" popsGS = some n → n ≠ 0 →
      default_params popsGS = Except.ok []) ∧
    (lookupA "unidentified" popsGS = some 0 →
      default_params popsGS = Except.ok (("I0_floor", [0]) :: dpBody popsGS) ∧
      lookupA "I0_floor" (("I0_floor", ([0] : List ℚ)) :: dpBody popsGS) = some [0] ∧
      (∀ kv ∈ popsGS, kv.2 ≠ 0 → ∀ pk ∈ (lookupA kv.1 parameter_keys).getD [],
        lookupA pk (("I0_floor", [0]) :: dpBody popsGS) =
          some (List.replicate kv.2 ((lookupA pk param_defaults).getD 0)))) :=
  claim_C7 popsGS (by decide) (by decide)

/-! ## Slot-name collision-freedom -/

theorem digitChar_toNat : ∀ d < 10, (digitChar d).toNat = 48 + d := by
  decide

theorem parseL_append (l : List Char) (c : Char) :
    parseL (l ++ [c]) = 10 * parseL l + (c.toNat - 48) := by
  simp [parseL, List.foldl_append]

theorem parseL_natStrAux :
    ∀ (fuel n : Nat), n < fuel → parseL (natStrAux fuel n) = n := by
  intro fuel
  induction fuel with
  | zero => intro n h; omega
  | succ m ih =>
    intro n h
    by_cases h10 : n < 10
    · rw [natStrAux, if_pos h10]
      have hc := digitChar_toNat n h10
      simp [parseL, hc]
    · rw [natStrAux, if_neg h10, parseL_append]
      have hd : n / 10 < m := by
        have h1 : n / 10 < n := Nat.div_lt_self (by omega) (by decide)
        omega
      rw [ih _ hd]
      have hm : (digitChar (n % 10)).toNat = 48 + n % 10 :=
        digitChar_toNat _ (Nat.mod_lt _ (by decide))
      rw [hm]
      omega

/-- `parseL` is a left inverse of `natStrL`. -/
theorem parseL_natStrL : ∀ n, parseL (natStrL n) = n := by
  intro n
  exact parseL_natStrAux (n + 1) n (by omega)

theorem natStrL_inj {a b : Nat} (h : natStrL a = natStrL b) : a = b := by
  have hp := congrArg parseL h
  rwa [parseL_natStrL, parseL_natStrL] at hp

theorem slotName_data (k : String) (i : Nat) :
    (slotName k i).data = k.data ++ natStrL i := by
  rw [slotName, String.data_append]

/-- Same-key slot names determine the index. -/
theorem slotName_inj_idx {k : String} {i j : Nat}
    (h : slotName k i = slotName k j) : i = j := by
  have hd := congrArg String.data h
  rw [slotName_data, slotName_data] at hd
  exact natStrL_inj (List.append_cancel_left hd)

/-- Table fact: no canonical key is a strict prefix of another. -/
theorem canon_no_prefix :
    ∀ k1 ∈ canonKeys, ∀ k2 ∈ canonKeys, k1 ≠ k2 → ¬ (k1.data <+: k2.data) := by
  decide

/-- Slot naming is collision-free over the canonical keys: `pkey+str(i)`
determines both the key and the index. -/
theorem slotName_inj {k1 k2 : String} {i1 i2 : Nat}
    (h1 : k1 ∈ canonKeys) (h2 : k2 ∈ canonKeys)
    (h : slotName k1 i1 = slotName k2 i2) : k1 = k2 ∧ i1 = i2 := by
  have hd : k1.data ++ natStrL i1 = k2.data ++ natStrL i2 := by
    have hq := congrArg String.data h
    rwa [slotName_data, slotName_data] at hq
  have hkey : k1 = k2 := by
    by_cases he : k1 = k2
    · exact he
    · exfalso
      rcases List.append_eq_append_iff.mp hd with ⟨a, ha1, _⟩ | ⟨c, hc1, _⟩
      · exact canon_no_prefix k1 h1 k2 h2 he ⟨a, ha1.symm⟩
      · exact canon_no_prefix k2 h2 k1 h1 (fun hx => he hx.symm) ⟨c, hc1.symm⟩
  subst hkey
  exact ⟨rfl, natStrL_inj (List.append_cancel_left hd)⟩

/-! ## Flat slot-list lookup lemmas -/

theorem lookupA_range_map {β : Type} {g : Nat → β} {f : Nat → String}
    (hinj : ∀ a b, f a = f b → a = b) :
    ∀ {n i : Nat}, i < n →
      lookupA (f i) ((List.range n).map (fun j => (f j, g j))) = some (g i) := by
  intro n
  induction n with
  | zero => intro i h; omega
  | succ m ih =>
    intro i h
    rw [List.range_succ, List.map_append]
    by_cases hi : i < m
    · exact lookupA_append_some (ih hi)
    · have hieq : i = m := by omega
      have hnone : lookupA (f i) ((List.range m).map (fun j => (f j, g j))) = none := by
        apply lookupA_eq_none
        intro hmem
        simp only [keysA, List.map_map, Function.comp_def] at hmem
        rcases List.mem_map.mp hmem with ⟨j, hj, hje⟩
        have hji : j = i := hinj j i hje
        have hjm : j < m := List.mem_range.mp hj
        omega
      rw [lookupA_append_none hnone, hieq]
      simp

theorem lookupA_slotRow_self {k : String} {vals : List ℚ} {mask : List Bool}
    {bnds : List (Option ℚ × Option ℚ)} {i : Nat} (h : i < vals.length) :
    lookupA (slotName k i) (slotRow k vals mask bnds) =
      some { value := vals.getD i 0, vary := !(mask.getD i false),
             lo := (bnds.getD i (none, none)).1,
             hi := (bnds.getD i (none, none)).2 } := by
  exact lookupA_range_map (fun a b => slotName_inj_idx) h

theorem keysA_slotRow (k : String) (vals : List ℚ) (mask : List Bool)
    (bnds : List (Option ℚ × Option ℚ)) :
    keysA (slotRow k vals mask bnds) = (List.range vals.length).map (slotName k) := by
  simp [slotRow, keysA, List.map_map, Function.comp_def]

theorem lookupA_slotRow_ne {k : String} {vals : List ℚ} {mask : List Bool}
    {bnds : List (Option ℚ × Option ℚ)} {nm : String}
    (hne : ∀ j, nm ≠ slotName k j) :
    lookupA nm (slotRow k vals mask bnds) = none := by
  apply lookupA_eq_none
  rw [keysA_slotRow]
  intro hmem
  rcases List.mem_map.mp hmem with ⟨j, _, hje⟩
  exact hne j hje.symm

@[simp]
theorem flatSlots_nil (fp : ParamDict Bool) (pb : ParamDict (Option ℚ × Option ℚ)) :
    flatSlots [] fp pb = [] := rfl

@[simp]
theorem flatSlots_cons (kv : String × List ℚ) (p : ParamDict ℚ)
    (fp : ParamDict Bool) (pb : ParamDict (Option ℚ × Option ℚ)) :
    flatSlots (kv :: p) fp pb =
      slotRow kv.1 kv.2 ((lookupA kv.1 fp).getD []) ((lookupA kv.1 pb).getD []) ++
        flatSlots p fp pb := rfl

/-- Every name in the flat list comes from a key of `p`. -/
theorem mem_keysA_flatSlots :
    ∀ {p : ParamDict ℚ} {fp : ParamDict Bool} {pb : ParamDict (Option ℚ × Option ℚ)}
      {nm : String}, nm ∈ keysA (flatSlots p fp pb) →
      ∃ k ∈ keysA p, ∃ j, nm = slotName k j := by
  intro p
  induction p with
  | nil => intro fp pb nm h; simp at h
  | cons kv rest ih =>
    intro fp pb nm h
    rw [flatSlots_cons, keysA_append] at h
    rcases List.mem_append.mp h with h' | h'
    · rw [keysA_slotRow] at h'
      rcases List.mem_map.mp h' with ⟨j, _, hje⟩
      exact ⟨kv.1, by simp, j, hje.symm⟩
    · rcases ih h' with ⟨k, hk, j, hje⟩
      exact ⟨k, by simp [hk], j, hje⟩

/-- Slot lookup in the full flat list, for a canonical schema dict. -/
theorem lookupA_flatSlots :
    ∀ {p : ParamDict ℚ} {fp : ParamDict Bool} {pb : ParamDict (Option ℚ × Option ℚ)}
      {k : String} {vals : List ℚ} {i : Nat},
      (∀ key ∈ keysA p, key ∈ canonKeys) → k ∈ canonKeys →
      lookupA k p = some vals → i < vals.length →
      lookupA (slotName k i) (flatSlots p fp pb) =
        some { value := vals.getD i 0,
               vary := !(((lookupA k fp).getD []).getD i false),
               lo := (((lookupA k pb).getD []).getD i (none, none)).1,
               hi := (((lookupA k pb).getD []).getD i (none, none)).2 } := by
  intro p
  induction p with
  | nil => intro fp pb k vals i _ _ hv _; simp at hv
  | cons kv rest ih =>
    intro fp pb k vals i hcanon hk hv hi
    rw [flatSlots_cons]
    by_cases he : kv.1 = k
    · subst he
      have hv0 : kv.2 = vals := by simpa using hv
      subst hv0
      exact lookupA_append_some (lookupA_slotRow_self hi)
    · have hne : ∀ j, slotName k i ≠ slotName kv.1 j := by
        intro j hc
        exact he ((slotName_inj hk (hcanon kv.1 (by simp)) hc).1.symm)
      rw [lookupA_append_none (lookupA_slotRow_ne hne)]
      have hv' : lookupA k rest = some vals := by
        simpa [he] using hv
      exact ih (fun key hkey => hcanon key (by simp [hkey])) hk hv' hi

/-- With a canonical, duplicate-free schema the flat slot names are
pairwise distinct. -/
theorem flatSlots_names_nodup :
    ∀ {p : ParamDict ℚ} {fp : ParamDict Bool} {pb : ParamDict (Option ℚ × Option ℚ)},
      (∀ key ∈ keysA p, key ∈ canonKeys) → (keysA p).Nodup →
      (keysA (flatSlots p fp pb)).Nodup := by
  intro p
  induction p with
  | nil => intro fp pb _ _; simp [keysA]
  | cons kv rest ih =>
    intro fp pb hcanon hnd
    rw [flatSlots_cons, keysA_append]
    refine List.Nodup.append ?_ ?_ ?_
    · rw [keysA_slotRow]
      exact List.Nodup.map (fun a b => slotName_inj_idx) (List.nodup_range _)
    · exact ih (fun key hkey => hcanon key (by simp [hkey]))
        (by rw [keysA_cons] at hnd; exact (List.nodup_cons.mp hnd).2)
    · rw [List.disjoint_left]
      intro nm hnm1 hnm2
      rw [keysA_slotRow] at hnm1
      rcases List.mem_map.mp hnm1 with ⟨j, _, hje⟩
      rcases mem_keysA_flatSlots hnm2 with ⟨k', hk', j', hje'⟩
      have hkvc : kv.1 ∈ canonKeys := hcanon kv.1 (by simp)
      have hkc : k' ∈ canonKeys := hcanon k' (by simp [hk'])
      have : kv.1 = k' := by
        have heq : slotName kv.1 j = slotName k' j' := by rw [hje, hje']
        exact (slotName_inj hkvc hkc heq).1
      rw [keysA_cons] at hnd
      exact (List.nodup_cons.mp hnd).1 (this ▸ hk')

/-! ## `exMapM`, `mergeOver` and `lmfMinimize` lemmas -/

@[simp]
theorem exMapM_nil {β γ : Type} (f : β → Except String γ) :
    exMapM f [] = Except.ok [] := rfl

theorem exMapM_cons {β γ : Type} (f : β → Except String γ) (x : β) (xs : List β) :
    exMapM f (x :: xs) =
      f x >>= fun y => exMapM f xs >>= fun ys => pure (y :: ys) := rfl

theorem exMapM_ok_of {β γ : Type} {f : β → Except String γ} {g : β → γ} :
    ∀ {l : List β}, (∀ a ∈ l, f a = Except.ok (g a)) →
      exMapM f l = Except.ok (l.map g) := by
  intro l
  induction l with
  | nil => intro _; rfl
  | cons x xs ih =>
    intro h
    rw [exMapM_cons, h x (by simp), ex_bind_ok, ih (fun a ha => h a (by simp [ha])),
      ex_bind_ok]
    rfl

theorem exMapM_ok_forall₂ {β γ : Type} {f : β → Except String γ} :
    ∀ {l : List β} {r : List γ}, exMapM f l = Except.ok r →
      List.Forall₂ (fun a b => f a = Except.ok b) l r := by
  intro l
  induction l with
  | nil =>
    intro r h
    have : r = [] := by simpa using h.symm
    subst this
    exact List.Forall₂.nil
  | cons x xs ih =>
    intro r h
    rw [exMapM_cons] at h
    cases hfx : f x with
    | error e => rw [hfx] at h; simp at h
    | ok y =>
      rw [hfx, ex_bind_ok] at h
      cases hm : exMapM f xs with
      | error e => rw [hm] at h; simp at h
      | ok ys =>
        rw [hm, ex_bind_ok] at h
        have : y :: ys = r := by simpa using h
        subst this
        exact List.Forall₂.cons hfx (ih hm)

@[simp]
theorem mergeOver_none {α : Type} (base : ParamDict α) :
    mergeOver base none = Except.ok base := rfl

@[simp]
theorem mergeOver_some {α : Type} (base d : ParamDict α) :
    mergeOver base (some d) = update_params base d := rfl

@[simp]
theorem lmfMinimize_nil (assign : String → ℚ) : lmfMinimize assign [] = [] := rfl

@[simp]
theorem lmfMinimize_cons (assign : String → ℚ) (ns : String × Slot)
    (rest : List (String × Slot)) :
    lmfMinimize assign (ns :: rest) =
      (ns.1, if ns.2.vary then { ns.2 with value := assign ns.1 } else ns.2) ::
        lmfMinimize assign rest := rfl

theorem lookupA_lmfMinimize (assign : String → ℚ) (flat : List (String × Slot))
    (nm : String) :
    lookupA nm (lmfMinimize assign flat) =
      (lookupA nm flat).map
        (fun s => if s.vary then { s with value := assign nm } else s) := by
  induction flat with
  | nil => rfl
  | cons ns rest ih =>
    by_cases he : ns.1 = nm
    · subst he; simp
    · simp [he, ih]

/-! ## `saxskit_params` round trip -/

theorem range_map_getD {β : Type} (l : List β) (d : β) :
    (List.range l.length).map (fun i => l.getD i d) = l := by
  apply List.ext_getElem (by simp)
  intro n h1 h2
  rw [List.getElem_map, List.getElem_range]
  exact List.getD_eq_getElem l d h2

theorem lookupA_self_of_nodup {β : Type} :
    ∀ {p : List (String × β)} {row : String × β},
      (keysA p).Nodup → row ∈ p → lookupA row.1 p = some row.2 := by
  intro p
  induction p with
  | nil => intro row _ h; simp at h
  | cons kv rest ih =>
    intro row hnd hmem
    rcases List.mem_cons.mp hmem with he | hmem'
    · subst he; simp
    · have h1 : kv.1 ∉ keysA rest := by
        rw [keysA_cons] at hnd
        exact (List.nodup_cons.mp hnd).1
      have h2 : row.1 ∈ keysA rest := List.mem_map_of_mem Prod.fst hmem'
      have hne : ¬ kv.1 = row.1 := fun he => h1 (he ▸ h2)
      rw [lookupA_cons, if_neg hne]
      exact ih (by rw [keysA_cons] at hnd; exact (List.nodup_cons.mp hnd).2) hmem'

theorem slotRead_ok {flat : List (String × Slot)} {k : String} {i : Nat} {s : Slot}
    (h : lookupA (slotName k i) flat = some s) :
    slotRead flat k i = Except.ok s.value := by
  simp [slotRead, h]

/-- Reading back one schema row from the flat slots of `p` yields `p`'s
values for that key. -/
theorem skRow_flatSlots (p : ParamDict ℚ) (fp : ParamDict Bool)
    (pb : ParamDict (Option ℚ × Option ℚ)) (kv : String × List ℚ) (pvals : List ℚ)
    (hcanonp : ∀ key ∈ keysA p, key ∈ canonKeys) (hkc : kv.1 ∈ canonKeys)
    (hvals : lookupA kv.1 p = some pvals) (hlen : kv.2.length = pvals.length) :
    skRow (flatSlots p fp pb) kv = Except.ok (kv.1, pvals) := by
  unfold skRow
  have hin : exMapM (slotRead (flatSlots p fp pb) kv.1) (List.range kv.2.length) =
      Except.ok ((List.range kv.2.length).map (fun i => pvals.getD i 0)) := by
    apply exMapM_ok_of
    intro i hi
    have hilt : i < pvals.length := hlen ▸ List.mem_range.mp hi
    exact slotRead_ok (lookupA_flatSlots hcanonp hkc hvals hilt)
  rw [hin, ex_bind_ok, hlen, range_map_getD pvals 0]
  rfl

theorem exMapM_skRow_flatSlots {p : ParamDict ℚ} {fp : ParamDict Bool}
    {pb : ParamDict (Option ℚ × Option ℚ)}
    (hcanonp : ∀ key ∈ keysA p, key ∈ canonKeys) :
    ∀ {dps psub : ParamDict ℚ},
      List.Forall₂ (fun a b => a.1 = b.1 ∧ a.2.length = b.2.length) dps psub →
      (∀ row ∈ psub, row.1 ∈ canonKeys ∧ lookupA row.1 p = some row.2) →
      exMapM (skRow (flatSlots p fp pb)) dps = Except.ok psub := by
  intro dps psub hsh
  induction hsh with
  | nil => intro _; rfl
  | cons hab htail ih =>
    rename_i a b dps' psub'
    intro hrows
    have hb := hrows b (by simp)
    have hsk : skRow (flatSlots p fp pb) a = Except.ok b := by
      have h1 : a.1 ∈ canonKeys := hab.1 ▸ hb.1
      have h2 : lookupA a.1 p = some b.2 := by rw [hab.1]; exact hb.2
      rw [skRow_flatSlots p fp pb a b.2 hcanonp h1 h2 hab.2]
      rcases b with ⟨b1, b2⟩
      simp [hab.1]
    rw [exMapM_cons, hsk, ex_bind_ok,
      ih (fun row hrow => hrows row (by simp [hrow])), ex_bind_ok]
    rfl

/-- The round trip at the heart of claims C4/C5: converting a schema-shaped
dict to flat slots and reading it back returns the dict unchanged,
regardless of the fixed-mask and bounds dicts. -/
theorem saxskit_params_flatSlots {pops : Pops} {dp p : ParamDict ℚ}
    {fp : ParamDict Bool} {pb : ParamDict (Option ℚ × Option ℚ)}
    (hdp : default_params pops = Except.ok dp)
    (hcanon : ∀ key ∈ keysA dp, key ∈ canonKeys)
    (hnd : (keysA dp).Nodup)
    (hsh : List.Forall₂ (fun a b => a.1 = b.1 ∧ a.2.length = b.2.length) dp p) :
    saxskit_params pops (flatSlots p fp pb) = Except.ok p := by
  unfold saxskit_params
  rw [hdp, ex_bind_ok]
  have hkeys : keysA p = keysA dp := keysA_of_forall₂ hsh
  have hndp : (keysA p).Nodup := hkeys ▸ hnd
  have hcanonp : ∀ key ∈ keysA p, key ∈ canonKeys :=
    fun key hkey => hcanon key (hkeys ▸ hkey)
  exact exMapM_skRow_flatSlots hcanonp hsh
    (fun row hrow =>
      ⟨hcanonp row.1 (List.mem_map_of_mem Prod.fst hrow),
       lookupA_self_of_nodup hndp hrow⟩)

/-! ## Schema invariants of `default_params` -/

theorem exLookup_ok {β : Type} {d : List (String × β)} {k : String} {v : β}
    (h : exLookup d k = Except.ok v) : lookupA k d = some v := by
  unfold exLookup at h
  cases hx : lookupA k d with
  | none => rw [hx] at h; exact absurd h (by simp)
  | some x =>
    rw [hx] at h
    injection h with h2
    exact congrArg some h2

theorem keysA_setKey_sub {α : Type} (d : ParamDict α) (k : String) (v : List α) :
    ∀ k' ∈ keysA (setKey d k v), k' ∈ keysA d ∨ k' = k := by
  intro k' h
  unfold setKey at h
  by_cases hm : k ∈ keysA d
  · rw [if_pos hm, keysA_replaceKey] at h
    exact Or.inl h
  · rw [if_neg hm, keysA_append] at h
    rcases List.mem_append.mp h with h' | h'
    · exact Or.inl h'
    · right; simpa [keysA] using h'

theorem keysA_setKey_nodup {α : Type} {d : ParamDict α} {k : String} {v : List α}
    (h : (keysA d).Nodup) : (keysA (setKey d k v)).Nodup := by
  unfold setKey
  by_cases hm : k ∈ keysA d
  · rw [if_pos hm, keysA_replaceKey]
    exact h
  · rw [if_neg hm, keysA_append]
    refine List.Nodup.append h (by simp) ?_
    rw [List.disjoint_left]
    intro a ha hb
    have : a = k := by simpa [keysA] using hb
    exact hm (this ▸ ha)

theorem dpStepInner_inv {n : Nat} {pd : ParamDict ℚ} {pk : String} {r : ParamDict ℚ}
    (h : dpStepInner n pd pk = Except.ok r) :
    (∀ k ∈ keysA r, k ∈ keysA pd ∨ k = pk) ∧
      ((keysA pd).Nodup → (keysA r).Nodup) := by
  unfold dpStepInner at h
  cases hl : exLookup param_defaults pk with
  | error e => rw [hl] at h; simp at h
  | ok dv =>
    rw [hl, ex_bind_ok] at h
    have hr : setKey pd pk (List.replicate n dv) = r := by simpa using h
    subst hr
    exact ⟨keysA_setKey_sub pd pk _, fun hnd => keysA_setKey_nodup hnd⟩

theorem pk_fold_inv {n : Nat} :
    ∀ {pks : List String} {pd r : ParamDict ℚ},
      pks.foldlM (dpStepInner n) pd = Except.ok r →
      (∀ k ∈ keysA r, k ∈ keysA pd ∨ k ∈ pks) ∧
        ((keysA pd).Nodup → (keysA r).Nodup) := by
  intro pks
  induction pks with
  | nil =>
    intro pd r h
    rw [List.foldlM_nil] at h
    have : pd = r := by simpa using h
    subst this
    exact ⟨fun k hk => Or.inl hk, id⟩
  | cons pk rest ih =>
    intro pd r h
    rw [List.foldlM_cons] at h
    cases hstep : dpStepInner n pd pk with
    | error e => rw [hstep] at h; simp at h
    | ok pd1 =>
      rw [hstep, ex_bind_ok] at h
      obtain ⟨hsub1, hnd1⟩ := dpStepInner_inv hstep
      obtain ⟨hsub2, hnd2⟩ := ih h
      constructor
      · intro k hk
        rcases hsub2 k hk with h' | h'
        · rcases hsub1 k h' with h'' | h''
          · exact Or.inl h''
          · exact Or.inr (by simp [h''])
        · exact Or.inr (by simp [h'])
      · exact fun hnd => hnd2 (hnd1 hnd)

/-- Table fact: every owned parameter key is canonical. -/
theorem parameter_keys_rows_canon :
    ∀ p ∈ keysA parameter_keys,
      ∀ pk ∈ (lookupA p parameter_keys).getD [], pk ∈ canonKeys := by
  decide

theorem dpStep_inv {pd : ParamDict ℚ} {kv : String × Nat} {r : ParamDict ℚ}
    (h : dpStep pd kv = Except.ok r) :
    (∀ k ∈ keysA r, k ∈ keysA pd ∨ k ∈ canonKeys) ∧
      ((keysA pd).Nodup → (keysA r).Nodup) := by
  unfold dpStep at h
  by_cases h2 : kv.2 ≠ 0
  · rw [if_pos h2] at h
    cases hl : exLookup parameter_keys kv.1 with
    | error e => rw [hl] at h; simp at h
    | ok pks =>
      rw [hl, ex_bind_ok] at h
      have hpks : lookupA kv.1 parameter_keys = some pks := exLookup_ok hl
      have hmem : kv.1 ∈ keysA parameter_keys := mem_of_lookupA_eq_some hpks
      obtain ⟨hsub, hnd⟩ := pk_fold_inv h
      refine ⟨fun k hk => ?_, hnd⟩
      rcases hsub k hk with h' | h'
      · exact Or.inl h'
      · refine Or.inr (parameter_keys_rows_canon kv.1 hmem k ?_)
        rw [hpks]
        exact h'
  · rw [if_neg h2] at h
    have : pd = r := by simpa using h
    subst this
    exact ⟨fun k hk => Or.inl hk, id⟩

theorem dp_fold_inv :
    ∀ {l : Pops} {pd r : ParamDict ℚ}, l.foldlM dpStep pd = Except.ok r →
      (∀ k ∈ keysA r, k ∈ keysA pd ∨ k ∈ canonKeys) ∧
        ((keysA pd).Nodup → (keysA r).Nodup) := by
  intro l
  induction l with
  | nil =>
    intro pd r h
    rw [List.foldlM_nil] at h
    have : pd = r := by simpa using h
    subst this
    exact ⟨fun k hk => Or.inl hk, id⟩
  | cons kv rest ih =>
    intro pd r h
    rw [List.foldlM_cons] at h
    cases hstep : dpStep pd kv with
    | error e => rw [hstep] at h; simp at h
    | ok pd1 =>
      rw [hstep, ex_bind_ok] at h
      obtain ⟨hsub1, hnd1⟩ := dpStep_inv hstep
      obtain ⟨hsub2, hnd2⟩ := ih h
      constructor
      · intro k hk
        rcases hsub2 k hk with h' | h'
        · exact hsub1 k h'
        · exact Or.inr h'
      · exact fun hnd => hnd2 (hnd1 hnd)

/-- Whatever the population spec, a successful `default_params` yields a
dict with canonical, duplicate-free keys. -/
theorem default_params_canon {pops : Pops} {dp : ParamDict ℚ}
    (hdp : default_params pops = Except.ok dp) :
    (∀ k ∈ keysA dp, k ∈ canonKeys) ∧ (keysA dp).Nodup := by
  unfold default_params at hdp
  cases hu : lookupA "unidentified" pops with
  | none =>
    rw [show popLookup pops "unidentified" =
        Except.error ("KeyError: " ++ "unidentified") from by simp [popLookup, hu],
      ex_bind_error] at hdp
    simp at hdp
  | some u =>
    rw [show popLookup pops "unidentified" = Except.ok u from by
        simp [popLookup, hu], ex_bind_ok] at hdp
    by_cases hz : u ≠ 0
    · rw [if_pos hz] at hdp
      have : ([] : ParamDict ℚ) = dp := by simpa using hdp
      subst this
      simp
    · rw [if_neg hz,
        show exLookup param_defaults "I0_floor" = Except.ok 0 from rfl,
        ex_bind_ok] at hdp
      have hinv := dp_fold_inv hdp
      refine ⟨fun k hk => ?_, hinv.2 (by simp)⟩
      rcases hinv.1 k hk with h' | h'
      · have hk0 : k = "I0_floor" := by simpa [keysA] using h'
        subst hk0
        simp [canonKeys]
      · exact h'

/-! ## `lmfit_params` characterization -/

/-- Table fact: every canonical key has an entry in `param_limits`. -/
theorem canon_sub_limits : ∀ k ∈ canonKeys, k ∈ keysA param_limits := by
  decide

theorem boundsDefault_ok {dp : ParamDict ℚ}
    (hsub : ∀ k ∈ keysA dp, k ∈ keysA param_limits) :
    boundsDefault dp = Except.ok (dp.map (fun kv =>
      (kv.1, kv.2.map (fun _ => (lookupA kv.1 param_limits).getD (none, none))))) := by
  unfold boundsDefault
  apply exMapM_ok_of
  intro kv hkv
  rcases lookupA_isSome_of_mem (hsub kv.1 (List.mem_map_of_mem Prod.fst hkv))
    with ⟨lim, hlim⟩
  simp [exLookup, hlim]

theorem lmfit_params_eq {pops : Pops} {dp p : ParamDict ℚ} {fp : ParamDict Bool}
    {pb0 pb : ParamDict (Option ℚ × Option ℚ)}
    {params0 : Option (ParamDict ℚ)} {fixed_params : Option (ParamDict Bool)}
    {param_bounds : Option (ParamDict (Option ℚ × Option ℚ))}
    (hdp : default_params pops = Except.ok dp)
    (hp : mergeOver dp params0 = Except.ok p)
    (hfp : mergeOver (maskFalse dp) fixed_params = Except.ok fp)
    (hpb0 : boundsDefault dp = Except.ok pb0)
    (hpb : mergeOver pb0 param_bounds = Except.ok pb) :
    lmfit_params pops params0 fixed_params param_bounds =
      Except.ok (flatSlots p fp pb) := by
  unfold lmfit_params
  rw [hdp, ex_bind_ok, hp, ex_bind_ok, hfp, ex_bind_ok, hpb0, ex_bind_ok, hpb,
    ex_bind_ok]
  rfl

/-! ## Claim C4 -/

/-- C4: for a parameter dict `ps` conforming to the default schema (same key
sequence and per-key lengths as `default_params`), converting to the flat
optimizer representation and back is the identity, and the slot names are
pairwise distinct (deterministic, collision-free naming). -/
theorem claim_C4 (pops : Pops) (ps dp : ParamDict ℚ)
    (hdp : default_params pops = Except.ok dp)
    (hsh : List.Forall₂ (fun a b => a.1 = b.1 ∧ a.2.length = b.2.length) dp ps) :
    ∃ flat, lmfit_params pops (some ps) none none = Except.ok flat ∧
      saxskit_params pops flat = Except.ok ps ∧ (keysA flat).Nodup := by
  obtain ⟨hcanon, hnd⟩ := default_params_canon hdp
  have hup : update_params dp ps = Except.ok ps := update_params_conform hsh hnd
  have hpb0 := boundsDefault_ok (fun k hk => canon_sub_limits k (hcanon k hk))
  refine ⟨flatSlots ps (maskFalse dp) (dp.map (fun kv =>
      (kv.1, kv.2.map (fun _ => (lookupA kv.1 param_limits).getD (none, none))))),
    lmfit_params_eq hdp (by simpa using hup) (mergeOver_none _) hpb0 (mergeOver_none _),
    saxskit_params_flatSlots hdp hcanon hnd hsh, ?_⟩
  apply flatSlots_names_nodup
  · intro key hkey
    exact hcanon key (keysA_of_forall₂ hsh ▸ hkey)
  · exact (keysA_of_forall₂ hsh) ▸ hnd

/-- Witness for C4 at the concrete spec `popsGS` and dict `psGS`. -/
theorem claim_C4_witness :
    ∃ flat, lmfit_params popsGS (some psGS) none none = Except.ok flat ∧
      saxskit_params popsGS flat = Except.ok psGS ∧ (keysA flat).Nodup :=
  claim_C4 popsGS psGS (("I0_floor", [0]) :: dpBody popsGS) (by rfl)
    (by simp [dpBody, popsGS, List.filter_cons, popRow, parameter_keys,
      List.forall₂_cons, psGS])

/-! ## Decomposing a successful `fit` run -/

theorem mergeOver_forall₂ {α : Type} {d r : ParamDict α} {o : Option (ParamDict α)}
    (h : mergeOver d o = Except.ok r) :
    List.Forall₂ (fun a b => a.1 = b.1 ∧ a.2.length = b.2.length) d r := by
  cases o with
  | none =>
    have he : d = r := by simpa using h
    subst he
    exact List.forall₂_same.mpr (fun x _ => ⟨rfl, rfl⟩)
  | some ps => exact update_params_forall₂ (by simpa using h)

theorem lookupA_forall₂ {β : Type}
    {R : (String × List β) → (String × List β) → Prop}
    (hfst : ∀ a b, R a b → a.1 = b.1) :
    ∀ {d r : ParamDict β} {k : String} {vals : List β},
      List.Forall₂ R d r → lookupA k d = some vals →
      ∃ w, lookupA k r = some w ∧ R (k, vals) (k, w) := by
  intro d r k vals hf
  induction hf with
  | nil => intro h; simp at h
  | cons hab htail ih =>
    rename_i a b d' r'
    intro h
    by_cases he : a.1 = k
    · have hv : a.2 = vals := by simpa [he] using h
      have hb1 : b.1 = k := (hfst a b hab) ▸ he
      have ha' : (k, vals) = a := by
        rcases a with ⟨a1, a2⟩
        simp only at he hv
        rw [he, hv]
      have hb' : (k, b.2) = b := by
        rcases b with ⟨b1, b2⟩
        simp only at hb1
        rw [hb1]
      refine ⟨b.2, by simp [hb1], ?_⟩
      rw [ha', hb']
      exact hab
    · have hb1 : ¬ b.1 = k := fun hc => he ((hfst a b hab) ▸ hc)
      have h' : lookupA k d' = some vals := by simpa [he] using h
      rcases ih h' with ⟨w, hw, hr⟩
      exact ⟨w, by simp [hb1, hw], hr⟩

theorem skRow_shape {flat : List (String × Slot)} {a b : String × List ℚ}
    (h : skRow flat a = Except.ok b) : a.1 = b.1 ∧ a.2.length = b.2.length := by
  unfold skRow at h
  cases hm : exMapM (slotRead flat a.1) (List.range a.2.length) with
  | error e => rw [hm] at h; simp at h
  | ok vals =>
    rw [hm, ex_bind_ok] at h
    have hb : (a.1, vals) = b := by simpa using h
    have hlen : a.2.length = vals.length := by
      have hl := (exMapM_ok_forall₂ hm).length_eq
      simpa using hl
    rw [← hb]
    exact ⟨rfl, hlen⟩

theorem saxskit_params_shape {pops : Pops} {flat : List (String × Slot)}
    {r : ParamDict ℚ} (h : saxskit_params pops flat = Except.ok r) :
    ∃ dp, default_params pops = Except.ok dp ∧
      List.Forall₂ (fun a b => a.1 = b.1 ∧ a.2.length = b.2.length) dp r := by
  unfold saxskit_params at h
  cases hdp : default_params pops with
  | error e => rw [hdp] at h; simp at h
  | ok dp =>
    rw [hdp, ex_bind_ok] at h
    exact ⟨dp, rfl, (exMapM_ok_forall₂ h).imp (fun a b hab => skRow_shape hab)⟩

theorem fit_ok_decompose {ext : Extern} {f : SaxsFitter}
    {params0 : Option (ParamDict ℚ)} {fixed_params : Option (ParamDict Bool)}
    {param_limits0 : Option (ParamDict (Option ℚ × Option ℚ))}
    {ew : Bool} {p_opt : ParamDict ℚ} {rpt : List (String × RVal)}
    (hu : lookupA "unidentified" f.populations = some 0)
    (hfit : fit ext f params0 fixed_params param_limits0 ew =
      Except.ok (p_opt, rpt)) :
    ∃ dp pm lmfp, default_params f.populations = Except.ok dp ∧
      mergeOver dp params0 = Except.ok pm ∧
      lmfit_params f.populations (some pm) fixed_params param_limits0 =
        Except.ok lmfp ∧
      saxskit_params f.populations (lmfMinimize ext.optAssign lmfp) =
        Except.ok p_opt := by
  unfold fit at hfit
  rw [show popLookup f.populations "unidentified" = Except.ok 0 from by
    simp [popLookup, hu]] at hfit
  simp only [ex_bind_ok] at hfit
  rw [if_neg (show ¬ ((0 : Nat) ≠ 0) by simp)] at hfit
  cases hdp : default_params f.populations with
  | error e => rw [hdp] at hfit; simp at hfit
  | ok dp =>
    rw [hdp] at hfit
    simp only [ex_bind_ok] at hfit
    cases hpm : mergeOver dp params0 with
    | error e => rw [hpm] at hfit; simp at hfit
    | ok pm =>
      rw [hpm] at hfit
      simp only [ex_bind_ok] at hfit
      cases hlm : lmfit_params f.populations (some pm) fixed_params param_limits0 with
      | error e => rw [hlm] at hfit; simp at hfit
      | ok lmfp =>
        rw [hlm] at hfit
        simp only [ex_bind_ok] at hfit
        cases hsx : saxskit_params f.populations (lmfMinimize ext.optAssign lmfp) with
        | error e => rw [hsx] at hfit; simp at hfit
        | ok P =>
          rw [hsx] at hfit
          simp only [ex_bind_ok, ex_pure_eq_ok, Except.ok.injEq, Prod.mk.injEq] at hfit
          exact ⟨dp, pm, lmfp, rfl, hpm, hlm, hfit.1 ▸ hsx⟩

theorem lmfit_params_decompose {pops : Pops} {dp : ParamDict ℚ}
    {params0 : Option (ParamDict ℚ)} {fixed_params : Option (ParamDict Bool)}
    {param_bounds : Option (ParamDict (Option ℚ × Option ℚ))}
    {lmfp : List (String × Slot)}
    (hdp : default_params pops = Except.ok dp)
    (hlm : lmfit_params pops params0 fixed_params param_bounds = Except.ok lmfp) :
    ∃ p fp pb0 pb, mergeOver dp params0 = Except.ok p ∧
      mergeOver (maskFalse dp) fixed_params = Except.ok fp ∧
      boundsDefault dp = Except.ok pb0 ∧
      mergeOver pb0 param_bounds = Except.ok pb ∧
      lmfp = flatSlots p fp pb := by
  unfold lmfit_params at hlm
  rw [hdp] at hlm
  simp only [ex_bind_ok] at hlm
  cases hp : mergeOver dp params0 with
  | error e => rw [hp] at hlm; simp at hlm
  | ok p =>
    rw [hp] at hlm
    simp only [ex_bind_ok] at hlm
    cases hfp : mergeOver (maskFalse dp) fixed_params with
    | error e => rw [hfp] at hlm; simp at hlm
    | ok fp =>
      rw [hfp] at hlm
      simp only [ex_bind_ok] at hlm
      cases hpb0 : boundsDefault dp with
      | error e => rw [hpb0] at hlm; simp at hlm
      | ok pb0 =>
        rw [hpb0] at hlm
        simp only [ex_bind_ok] at hlm
        cases hpb : mergeOver pb0 param_bounds with
        | error e => rw [hpb] at hlm; simp at hlm
        | ok pb =>
          rw [hpb] at hlm
          simp only [ex_bind_ok, ex_pure_eq_ok, Except.ok.injEq] at hlm
          exact ⟨p, fp, pb0, pb, rfl, rfl, rfl, hpb, hlm.symm⟩

theorem keysA_maskFalse (dp : ParamDict ℚ) : keysA (maskFalse dp) = keysA dp := by
  simp [maskFalse, keysA, List.map_map, Function.comp_def]

theorem lookupA_maskFalse (dp : ParamDict ℚ) (k : String) :
    lookupA k (maskFalse dp) = (lookupA k dp).map (fun l => l.map (fun _ => false)) := by
  induction dp with
  | nil => rfl
  | cons kv rest ih =>
    by_cases he : kv.1 = k
    · simp [maskFalse, he]
    · simpa [maskFalse, he] using ih

theorem getD_true_lt {l : List Bool} {i : Nat} (h : l.getD i false = true) :
    i < l.length := by
  by_contra hge
  push_neg at hge
  rw [List.getD_eq_getElem?_getD, List.getElem?_eq_none (by omega)] at h
  simp at h

/-! ## Claim C5 -/

/-- C5: in any fit run, a (key, index) slot whose merged fixed-mask entry is
`True` is excluded from the optimizer's search: the optimized dict's entry
there equals the merged initial dict's entry, whatever values the optimizer
assigns to the varying slots. -/
theorem claim_C5 (ext : Extern) (f : SaxsFitter)
    (params0 : Option (ParamDict ℚ)) (fixed_params : Option (ParamDict Bool))
    (param_limits0 : Option (ParamDict (Option ℚ × Option ℚ)))
    (error_weighted : Bool) (dp pm : ParamDict ℚ) (fpm : ParamDict Bool)
    (k : String) (i : Nat) (bl : List Bool)
    (p_opt : ParamDict ℚ) (rpt : List (String × RVal))
    (hu : lookupA "unidentified" f.populations = some 0)
    (hdp : default_params f.populations = Except.ok dp)
    (hpm : mergeOver dp params0 = Except.ok pm)
    (hfm : mergeOver (maskFalse dp) fixed_params = Except.ok fpm)
    (hmask : lookupA k fpm = some bl)
    (hfix : bl.getD i false = true)
    (hfit : fit ext f params0 fixed_params param_limits0 error_weighted =
      Except.ok (p_opt, rpt)) :
    ∃ vals pvals, lookupA k p_opt = some vals ∧ lookupA k pm = some pvals ∧
      vals.getD i 0 = pvals.getD i 0 := by
  obtain ⟨dp', pm', lmfp, hdp', hpm', hlm, hsx⟩ := fit_ok_decompose hu hfit
  have hdpe : dp = dp' := by rw [hdp] at hdp'; simpa using hdp'
  subst hdpe
  have hpme : pm = pm' := by rw [hpm] at hpm'; simpa using hpm'
  subst hpme
  obtain ⟨hcanon, hnd⟩ := default_params_canon hdp
  have hshm := mergeOver_forall₂ hpm
  have hup : update_params dp pm = Except.ok pm := update_params_conform hshm hnd
  obtain ⟨p2, fp2, pb0, pb, hp2, hfp2, hpb0, hpb, hflat⟩ :=
    lmfit_params_decompose hdp hlm
  have hp2e : pm = p2 := by
    simp only [mergeOver_some] at hp2
    rw [hup] at hp2
    simpa using hp2
  subst hp2e
  have hfp2e : fpm = fp2 := by rw [hfm] at hfp2; simpa using hfp2
  subst hfp2e
  subst hflat
  have hshf := mergeOver_forall₂ hfm
  have hkfpm : k ∈ keysA fpm := mem_of_lookupA_eq_some hmask
  have hkeysf : keysA fpm = keysA dp := by
    rw [keysA_of_forall₂ hshf, keysA_maskFalse]
  have hkdp : k ∈ keysA dp := hkeysf ▸ hkfpm
  rcases lookupA_isSome_of_mem hkdp with ⟨dvals, hdvals⟩
  have hmf : lookupA k (maskFalse dp) = some (dvals.map (fun _ => false)) := by
    rw [lookupA_maskFalse, hdvals]
    rfl
  obtain ⟨w0, hw0, hR0⟩ := lookupA_forall₂ (fun a b h => h.1) hshf hmf
  have hble : bl = w0 := by rw [hmask] at hw0; simpa using hw0
  subst hble
  have hbllen : bl.length = dvals.length := by
    have h2 := hR0.2
    simpa using h2.symm
  have hi : i < dvals.length := hbllen ▸ getD_true_lt hfix
  obtain ⟨pvals, hpv, hRp⟩ := lookupA_forall₂ (fun a b h => h.1) hshm hdvals
  have hplen : pvals.length = dvals.length := hRp.2.symm
  have hkcanon : k ∈ canonKeys := hcanon k hkdp
  have hcanonpm : ∀ key ∈ keysA pm, key ∈ canonKeys := by
    intro key hkey
    exact hcanon key ((keysA_of_forall₂ hshm) ▸ hkey)
  have hip : i < pvals.length := hplen ▸ hi
  have hslot : lookupA (slotName k i) (flatSlots pm fpm pb) =
      some { value := pvals.getD i 0,
             vary := !(((lookupA k fpm).getD []).getD i false),
             lo := (((lookupA k pb).getD []).getD i (none, none)).1,
             hi := (((lookupA k pb).getD []).getD i (none, none)).2 } :=
    lookupA_flatSlots hcanonpm hkcanon hpv hip
  rw [hmask] at hslot
  simp only [Option.getD_some, hfix, Bool.not_true] at hslot
  have hlml : lookupA (slotName k i)
      (lmfMinimize ext.optAssign (flatSlots pm fpm pb)) =
      some { value := pvals.getD i 0, vary := false,
             lo := (((lookupA k pb).getD []).getD i (none, none)).1,
             hi := (((lookupA k pb).getD []).getD i (none, none)).2 } := by
    rw [lookupA_lmfMinimize, hslot]
    rfl
  unfold saxskit_params at hsx
  rw [hdp] at hsx
  simp only [ex_bind_ok] at hsx
  have hsfa := exMapM_ok_forall₂ hsx
  obtain ⟨w, hw, hskr⟩ :=
    lookupA_forall₂ (fun a b h => (skRow_shape h).1) hsfa hdvals
  simp only [skRow] at hskr
  cases hm : exMapM
      (slotRead (lmfMinimize ext.optAssign (flatSlots pm fpm pb)) k)
      (List.range dvals.length) with
  | error e => rw [hm] at hskr; simp at hskr
  | ok vals =>
    rw [hm] at hskr
    simp only [ex_bind_ok, ex_pure_eq_ok, Except.ok.injEq, Prod.mk.injEq,
      true_and] at hskr
    have hfa2 := exMapM_ok_forall₂ hm
    have hlen2 : vals.length = dvals.length := by
      have hl := hfa2.length_eq
      simpa using hl.symm
    have hgi := (List.forall₂_iff_get.mp hfa2).2 i (by simpa using hi)
      (by rw [hlen2]; exact hi)
    have hidx : (List.range dvals.length).get ⟨i, by simpa using hi⟩ = i := by
      simp [List.get_eq_getElem, List.getElem_range]
    rw [hidx] at hgi
    rw [show slotRead (lmfMinimize ext.optAssign (flatSlots pm fpm pb)) k i =
        Except.ok (pvals.getD i 0) from by simp [slotRead, hlml]] at hgi
    refine ⟨w, pvals, hw, hpv, ?_⟩
    rw [← hskr, List.getD_eq_getElem vals 0 (by rw [hlen2]; exact hi)]
    have hval : vals.get ⟨i, by rw [hlen2]; exact hi⟩ = pvals.getD i 0 := by
      simpa using hgi.symm
    simpa [List.get_eq_getElem] using hval

/-- Witness for C5: a concrete run with `rg_gp[0]` fixed at 42 keeps it at
42 while the optimizer moves every varying slot to 5. -/
theorem claim_C5_witness :
    ∃ vals pvals,
      lookupA "rg_gp"
        [("I0_floor", ([5] : List ℚ)), ("G_gp", [5]), ("rg_gp", [42]),
         ("D_gp", [5])] = some vals ∧
      lookupA "rg_gp"
        [("I0_floor", ([0] : List ℚ)), ("G_gp", [1/1000]), ("rg_gp", [42]),
         ("D_gp", [4])] = some pvals ∧
      vals.getD 0 0 = pvals.getD 0 0 :=
  claim_C5 extZ fitterC5 (some [("rg_gp", [42])]) (some [("rg_gp", [true])])
    none true
    [("I0_floor", [0]), ("G_gp", [1/1000]), ("rg_gp", [10]), ("D_gp", [4])]
    [("I0_floor", [0]), ("G_gp", [1/1000]), ("rg_gp", [42]), ("D_gp", [4])]
    [("I0_floor", [false]), ("G_gp", [false]), ("rg_gp", [true]), ("D_gp", [false])]
    "rg_gp" 0 [true]
    [("I0_floor", [5]), ("G_gp", [5]), ("rg_gp", [42]), ("D_gp", [5])]
    [("success", RVal.bool true),
     ("initial_objective", RVal.num (evaluate extZ fitterC5
       [("I0_floor", [0]), ("G_gp", [1/1000]), ("rg_gp", [42]), ("D_gp", [4])] true)),
     ("final_objective", RVal.num (evaluate extZ fitterC5
       [("I0_floor", [5]), ("G_gp", [5]), ("rg_gp", [42]), ("D_gp", [5])] true)),
     ("fit_snr", RVal.q (meanQ (extZ.computeSaxs fitterC5.q fitterC5.populations
         [("I0_floor", [5]), ("G_gp", [5]), ("rg_gp", [42]), ("D_gp", [5])]) /
       stdevQ extZ ((fitterC5.I.zip (extZ.computeSaxs fitterC5.q
           fitterC5.populations
           [("I0_floor", [5]), ("G_gp", [5]), ("rg_gp", [42]), ("D_gp", [5])])).map
         (fun p => p.1 - p.2))))]
    (by decide) rfl rfl rfl (by decide) (by decide) rfl

/-! ## Claim C10 -/

/-- C10: whenever `fit` returns an optimized dict on a fittable spec, that
dict has exactly the key set and per-key lengths of `default_params`:
`I0_floor` has length 1 and each owned key of each active population has
length equal to the population count — whatever the shape of the inputs. -/
theorem claim_C10 (ext : Extern) (f : SaxsFitter)
    (params0 : Option (ParamDict ℚ)) (fixed_params : Option (ParamDict Bool))
    (param_limits0 : Option (ParamDict (Option ℚ × Option ℚ)))
    (error_weighted : Bool) (p_opt : ParamDict ℚ) (rpt : List (String × RVal))
    (hcanon : ∀ kv ∈ f.populations, kv.1 ∈ keysA parameter_keys)
    (hnd : (keysA f.populations).Nodup)
    (hu : lookupA "unidentified" f.populations = some 0)
    (hfit : fit ext f params0 fixed_params param_limits0 error_weighted =
      Except.ok (p_opt, rpt)) :
    ∃ dp, default_params f.populations = Except.ok dp ∧
      keysA p_opt = keysA dp ∧
      (∀ k, (lookupA k p_opt).map List.length = (lookupA k dp).map List.length) ∧
      (∃ l0, lookupA "I0_floor" p_opt = some l0 ∧ l0.length = 1) ∧
      (∀ kv ∈ f.populations, kv.2 ≠ 0 →
        ∀ pk ∈ (lookupA kv.1 parameter_keys).getD [],
          ∃ l, lookupA pk p_opt = some l ∧ l.length = kv.2) := by
  obtain ⟨dp, pm, lmfp, hdp, hpm, hlm, hsx⟩ := fit_ok_decompose hu hfit
  obtain ⟨dp2, hdp2, hsh⟩ := saxskit_params_shape hsx
  have hdpe : dp = dp2 := by rw [hdp] at hdp2; simpa using hdp2
  subst hdpe
  have hexp := default_params_explicit hu hcanon hnd
  have hdpv : dp = ("I0_floor", [0]) :: dpBody f.populations := by
    have h3 := hdp.symm.trans hexp
    simpa using h3
  refine ⟨dp, hdp, keysA_of_forall₂ hsh, lookup_len_of_forall₂ hsh, ?_, ?_⟩
  · have h0 : lookupA "I0_floor" dp = some [0] := by rw [hdpv]; simp
    have hlen := lookup_len_of_forall₂ hsh "I0_floor"
    rw [h0] at hlen
    cases hop : lookupA "I0_floor" p_opt with
    | none => rw [hop] at hlen; simp at hlen
    | some l0 =>
      rw [hop] at hlen
      exact ⟨l0, rfl, by simpa using hlen⟩
  · intro kv hkv h2 pk hpk
    have hlk : lookupA pk dp =
        some (List.replicate kv.2 ((lookupA pk param_defaults).getD 0)) := by
      rw [hdpv]
      have hpkI : ¬ ("I0_floor" = pk) :=
        fun he => popRow_no_I0 kv.1 (hcanon kv hkv) (he ▸ hpk)
      rw [lookupA_cons, if_neg hpkI,
        lookupA_dpBody hcanon hnd hkv h2 (by rw [keysA_popRow]; exact hpk),
        lookupA_popRow_self hpk]
    have hlen := lookup_len_of_forall₂ hsh pk
    rw [hlk] at hlen
    cases hop : lookupA pk p_opt with
    | none => rw [hop] at hlen; simp at hlen
    | some l =>
      rw [hop] at hlen
      exact ⟨l, rfl, by simpa using hlen⟩

/-- Witness for C10 at a concrete successful fit over `fitterZ`. -/
theorem claim_C10_witness :
    ∃ dp, default_params fitterZ.populations = Except.ok dp ∧
      keysA [("I0_floor", ([5] : List ℚ))] = keysA dp ∧
      (∀ k, (lookupA k [("I0_floor", ([5] : List ℚ))]).map List.length =
        (lookupA k dp).map List.length) ∧
      (∃ l0, lookupA "I0_floor" [("I0_floor", ([5] : List ℚ))] = some l0 ∧
        l0.length = 1) ∧
      (∀ kv ∈ fitterZ.populations, kv.2 ≠ 0 →
        ∀ pk ∈ (lookupA kv.1 parameter_keys).getD [],
          ∃ l, lookupA pk [("I0_floor", ([5] : List ℚ))] = some l ∧
            l.length = kv.2) :=
  claim_C10 extZ fitterZ none none none true [("I0_floor", [5])]
    [("success", RVal.bool true),
     ("initial_objective", RVal.num (evaluate extZ fitterZ
       [("I0_floor", [0])] true)),
     ("final_objective", RVal.num (evaluate extZ fitterZ
       [("I0_floor", [5])] true)),
     ("fit_snr", RVal.q (meanQ (extZ.computeSaxs fitterZ.q fitterZ.populations
         [("I0_floor", [5])]) /
       stdevQ extZ ((fitterZ.I.zip (extZ.computeSaxs fitterZ.q
           fitterZ.populations [("I0_floor", [5])])).map (fun p => p.1 - p.2))))]
    (by decide) (by decide) (by decide) rfl


/-! ## `Option` monad reduction lemmas -/

@[simp]
theorem opt_bind_some {β γ : Type} (a : β) (f : β → Option γ) :
    (some a >>= f : Option γ) = f a := rfl

@[simp]
theorem opt_bind_none {β γ : Type} (f : β → Option γ) :
    ((none : Option β) >>= f : Option γ) = none := rfl

@[simp]
theorem opt_pure_eq_some {β : Type} (a : β) : (pure a : Option β) = some a := rfl

/-! ## `mkSaxsFitter` projection lemmas -/

@[simp]
theorem mkSaxsFitter_q (ext : Extern) (q I : List ℚ) (pops : Pops)
    (dI0 : Option (List ℚ)) : (mkSaxsFitter ext q I pops dI0).q = q := rfl

@[simp]
theorem mkSaxsFitter_I (ext : Extern) (q I : List ℚ) (pops : Pops)
    (dI0 : Option (List ℚ)) : (mkSaxsFitter ext q I pops dI0).I = I := rfl

@[simp]
theorem mkSaxsFitter_populations (ext : Extern) (q I : List ℚ) (pops : Pops)
    (dI0 : Option (List ℚ)) : (mkSaxsFitter ext q I pops dI0).populations = pops := rfl

@[simp]
theorem mkSaxsFitter_idx_fit (ext : Extern) (q I : List ℚ) (pops : Pops)
    (dI0 : Option (List ℚ)) :
    (mkSaxsFitter ext q I pops dI0).idx_fit = I.map (fun x => decide (0 < x)) := rfl

@[simp]
theorem mkSaxsFitter_logI (ext : Extern) (q I : List ℚ) (pops : Pops)
    (dI0 : Option (List ℚ)) :
    (mkSaxsFitter ext q I pops dI0).logI =
      I.map (fun x => if 0 < x then some (ext.lg x) else none) := rfl

@[simp]
theorem mkSaxsFitter_dI_some (ext : Extern) (q I : List ℚ) (pops : Pops)
    (l : List ℚ) : (mkSaxsFitter ext q I pops (some l)).dI = l.map some := rfl

@[simp]
theorem mkSaxsFitter_dI_none (ext : Extern) (q I : List ℚ) (pops : Pops) :
    (mkSaxsFitter ext q I pops none).dI =
      I.map (fun x => if 0 < x then some (ext.sq x) else none) := rfl

/-! ## Chi-square lemmas -/

theorem compute_chi2_nonneg (a b : List ℚ) : 0 ≤ compute_chi2 a b := by
  apply List.sum_nonneg
  intro x hx
  rcases List.mem_map.mp hx with ⟨p, _, hpe⟩
  rw [← hpe]
  exact sq_nonneg _

theorem compute_chi2w_nonneg (a b e : List ℚ) : 0 ≤ compute_chi2w a b e := by
  apply List.sum_nonneg
  intro x hx
  rcases List.mem_map.mp hx with ⟨p, _, hpe⟩
  rw [← hpe]
  exact div_nonneg (sq_nonneg _) (sq_nonneg _)

theorem compute_chi2_cons (x y : ℚ) (a b : List ℚ) :
    compute_chi2 (x :: a) (y :: b) = (x - y) ^ 2 + compute_chi2 a b := by
  simp [compute_chi2]

theorem compute_chi2_self : ∀ (a : List ℚ), compute_chi2 a a = 0
  | [] => rfl
  | x :: a => by rw [compute_chi2_cons, compute_chi2_self a]; ring

theorem compute_chi2w_cons (x y z : ℚ) (a b e : List ℚ) :
    compute_chi2w (x :: a) (y :: b) (z :: e) =
      (x - y) ^ 2 / z ^ 2 + compute_chi2w a b e := by
  simp [compute_chi2w]

theorem compute_chi2w_self : ∀ (a e : List ℚ), compute_chi2w a a e = 0
  | _, [] => by simp [compute_chi2w]
  | [], _ :: _ => rfl
  | x :: a, z :: e => by
    rw [compute_chi2w_cons, compute_chi2w_self a e]
    simp

/-! ## `maskFilter` and `allSome` lemmas -/

@[simp]
theorem maskFilter_nil_mask {β : Type} (xs : List β) : maskFilter [] xs = [] := rfl

@[simp]
theorem maskFilter_nil_xs {β : Type} (mask : List Bool) :
    maskFilter mask ([] : List β) = [] := by
  simp [maskFilter]

@[simp]
theorem maskFilter_cons {β : Type} (m : Bool) (ms : List Bool) (x : β) (xs : List β) :
    maskFilter (m :: ms) (x :: xs) =
      if m then x :: maskFilter ms xs else maskFilter ms xs := by
  cases m <;> simp [maskFilter]

theorem maskFilter_map {β γ : Type} (p : β → Bool) (g : β → γ) :
    ∀ (l : List β), maskFilter (l.map p) (l.map g) = (l.filter p).map g
  | [] => rfl
  | x :: l => by
    rw [List.map_cons, List.map_cons, maskFilter_cons, List.filter_cons]
    by_cases h : p x = true
    · rw [if_pos h, if_pos h, List.map_cons, maskFilter_map p g l]
    · rw [if_neg h, if_neg h, maskFilter_map p g l]

theorem maskFilter_self {β : Type} (p : β → Bool) :
    ∀ (l : List β), maskFilter (l.map p) l = l.filter p
  | [] => rfl
  | x :: l => by
    rw [List.map_cons, maskFilter_cons, List.filter_cons]
    by_cases h : p x = true
    · rw [if_pos h, if_pos h, maskFilter_self p l]
    · rw [if_neg h, if_neg h, maskFilter_self p l]

theorem mem_of_mem_maskFilter {β : Type} {mask : List Bool} {xs : List β} {x : β}
    (h : x ∈ maskFilter mask xs) : x ∈ xs := by
  obtain ⟨⟨m, y⟩, hp, hpe⟩ := List.mem_map.mp h
  have hz := (List.mem_filter.mp hp).1
  exact hpe ▸ (List.of_mem_zip hz).2

theorem maskFilter_agree :
    ∀ (I Ic : List ℚ), Ic.length = I.length →
      (∀ i, i < I.length → 0 < I.getD i 0 → Ic.getD i 0 = I.getD i 0) →
      maskFilter (I.map (fun x => decide (0 < x))) Ic =
        maskFilter (I.map (fun x => decide (0 < x))) I
  | [], [], _, _ => rfl
  | [], _ :: _, h, _ => by simp at h
  | _ :: _, [], h, _ => by simp at h
  | x :: I, y :: Ic, h, hag => by
    rw [List.map_cons, maskFilter_cons, maskFilter_cons]
    have h' : Ic.length = I.length := by simpa using h
    have hag' : ∀ i, i < I.length → 0 < I.getD i 0 → Ic.getD i 0 = I.getD i 0 :=
      fun i hi hp => hag (i + 1) (by simpa using hi) hp
    by_cases hx : 0 < x
    · have h0 : y = x := hag 0 (by simp) hx
      rw [if_pos (by simpa using hx), if_pos (by simpa using hx), h0,
        maskFilter_agree I Ic h' hag']
    · rw [if_neg (by simpa using hx), if_neg (by simpa using hx),
        maskFilter_agree I Ic h' hag']

@[simp]
theorem allSome_nil {β : Type} : allSome ([] : List (Option β)) = some [] := rfl

@[simp]
theorem allSome_cons_none {β : Type} (l : List (Option β)) :
    allSome (none :: l) = none := rfl

@[simp]
theorem allSome_cons_some {β : Type} (v : β) (l : List (Option β)) :
    allSome (some v :: l) = (allSome l).map (fun vs => v :: vs) := by
  show (allSome l >>= fun vs => pure (v :: vs)) = (allSome l).map (fun vs => v :: vs)
  cases h : allSome l <;> simp [h]

theorem allSome_map_some {β γ : Type} (g : β → γ) (f : β → Option γ) :
    ∀ (l : List β), (∀ x ∈ l, f x = some (g x)) →
      allSome (l.map f) = some (l.map g)
  | [], _ => rfl
  | x :: l, h => by
    rw [List.map_cons, h x (by simp), allSome_cons_some,
      allSome_map_some g f l (fun y hy => h y (by simp [hy]))]
    simp

theorem allSome_of_mem_none {β : Type} :
    ∀ (l : List (Option β)), none ∈ l → allSome l = none
  | o :: l, h => by
    rcases List.mem_cons.mp h with h1 | h1
    · rw [← h1]
      rfl
    · cases o with
      | none => rfl
      | some v => rw [allSome_cons_some, allSome_of_mem_none l h1]; rfl

theorem allSome_isSome {β : Type} :
    ∀ (l : List (Option β)), (∀ x ∈ l, x.isSome) → ∃ w, allSome l = some w
  | [], _ => ⟨[], rfl⟩
  | o :: l, h => by
    obtain ⟨w, hw⟩ := allSome_isSome l (fun y hy => h y (by simp [hy]))
    cases o with
    | none => exact absurd (h none (by simp)) (by simp)
    | some v => exact ⟨v :: w, by rw [allSome_cons_some, hw]; rfl⟩

/-! ## `evaluate` sign and self-fit lemmas -/

theorem evaluate_nonneg {ext : Extern} {f : SaxsFitter} {params : ParamDict ℚ}
    {ew : Bool} {v : ℚ} (h : evaluate ext f params ew = some v) : 0 ≤ v := by
  simp only [evaluate] at h
  cases h1 : allSome ((maskFilter f.idx_fit
      (ext.computeSaxs f.q f.populations params)).map (npLog ext.lg)) with
  | none => rw [h1] at h; simp at h
  | some logIc =>
    rw [h1] at h
    simp only [opt_bind_some] at h
    cases h2 : allSome (maskFilter f.idx_fit f.logI) with
    | none => rw [h2] at h; simp at h
    | some li =>
      rw [h2] at h
      simp only [opt_bind_some] at h
      cases ew with
      | true =>
        rw [if_pos rfl] at h
        cases h3 : allSome (maskFilter f.idx_fit f.dI) with
        | none => rw [h3] at h; simp at h
        | some di =>
          rw [h3] at h
          simp only [opt_bind_some, opt_pure_eq_some, Option.some.injEq] at h
          rw [← h]
          exact compute_chi2w_nonneg _ _ _
      | false =>
        rw [if_neg (by simp)] at h
        simp only [opt_pure_eq_some, Option.some.injEq] at h
        rw [← h]
        exact compute_chi2_nonneg _ _

theorem evaluate_selfFit (ext : Extern) (q I : List ℚ) (pops : Pops)
    (dI0 : Option (List ℚ)) (params : ParamDict ℚ) (ew : Bool)
    (hlen : (ext.computeSaxs q pops params).length = I.length)
    (hag : ∀ i, i < I.length → 0 < I.getD i 0 →
      (ext.computeSaxs q pops params).getD i 0 = I.getD i 0) :
    evaluate ext (mkSaxsFitter ext q I pops dI0) params ew = some 0 := by
  simp only [evaluate, mkSaxsFitter_q, mkSaxsFitter_populations,
    mkSaxsFitter_idx_fit, mkSaxsFitter_logI]
  have hic : maskFilter (I.map (fun x => decide (0 < x)))
      (ext.computeSaxs q pops params) = I.filter (fun x => decide (0 < x)) := by
    rw [maskFilter_agree I (ext.computeSaxs q pops params) hlen hag,
      maskFilter_self]
  rw [hic]
  rw [allSome_map_some ext.lg (npLog ext.lg) _ (fun x hx => by
    have hp := (List.mem_filter.mp hx).2
    rw [npLog, if_pos (by simpa using hp)])]
  simp only [opt_bind_some]
  rw [maskFilter_map]
  rw [allSome_map_some ext.lg _ _ (fun x hx => by
    have hp := (List.mem_filter.mp hx).2
    rw [if_pos (by simpa using hp)])]
  simp only [opt_bind_some]
  cases ew with
  | false =>
    rw [if_neg (by simp), compute_chi2_self]
    rfl
  | true =>
    rw [if_pos rfl]
    cases dI0 with
    | some l =>
      rw [mkSaxsFitter_dI_some]
      obtain ⟨w, hw⟩ := allSome_isSome
        (maskFilter (I.map fun x => decide (0 < x)) (l.map some))
        (fun x hx => by
          obtain ⟨y, _, hy⟩ := List.mem_map.mp (mem_of_mem_maskFilter hx)
          rw [← hy]
          rfl)
      rw [hw]
      simp only [opt_bind_some]
      rw [compute_chi2w_self]
      rfl
    | none =>
      rw [mkSaxsFitter_dI_none, maskFilter_map]
      rw [allSome_map_some ext.sq _ _ (fun x hx => by
        have hp := (List.mem_filter.mp hx).2
        rw [if_pos (by simpa using hp)])]
      simp only [opt_bind_some]
      rw [compute_chi2w_self]
      rfl

/-! ## Claim C8 -/

/-- C8: for every spectrum and parameter dict, whenever `evaluate` returns a
value it is non-negative, and `evaluate` returns exactly zero whenever the
modeled intensity matches the measured intensity at every fit-mask point
(all points of positive measured intensity). -/
theorem claim_C8 (ext : Extern) (q I : List ℚ) (pops : Pops)
    (dI0 : Option (List ℚ)) (params : ParamDict ℚ) (ew : Bool) :
    (∀ v, evaluate ext (mkSaxsFitter ext q I pops dI0) params ew = some v →
      0 ≤ v) ∧
    ((ext.computeSaxs q pops params).length = I.length →
      (∀ i, i < I.length → 0 < I.getD i 0 →
        (ext.computeSaxs q pops params).getD i 0 = I.getD i 0) →
      evaluate ext (mkSaxsFitter ext q I pops dI0) params ew = some 0) :=
  ⟨fun _ h => evaluate_nonneg h,
   fun hlen hag => evaluate_selfFit ext q I pops dI0 params ew hlen hag⟩

/-- Witness for C8: a one-point noiseless self-fit evaluates to zero, a
value the first conjunct certifies non-negative. -/
theorem claim_C8_witness :
    (0 : ℚ) ≤ 0 ∧
    evaluate extSelf (mkSaxsFitter extSelf [1] [1] [("unidentified", 0)]
      (some [1])) [] true = some 0 :=
  ⟨(claim_C8 extSelf [1] [1] [("unidentified", 0)] (some [1]) [] true).1 0
      ((claim_C8 extSelf [1] [1] [("unidentified", 0)] (some [1]) [] true).2 rfl
        (fun _ _ _ => rfl)),
    (claim_C8 extSelf [1] [1] [("unidentified", 0)] (some [1]) [] true).2 rfl
      (fun _ _ _ => rfl)⟩

/-! ## Claim C6 -/

/-- C6, corrected: the claimed guard does not exist. For every parameter
dict whose modeled intensity is zero or negative at some fit-mask point,
`evaluate` propagates the log-domain failure (poisoned result, `none`)
instead of clamping to a positive floor; the spec-words variant
`evaluate_clamped` is what the claim describes. -/
theorem claim_C6 (ext : Extern) (f : SaxsFitter) (params : ParamDict ℚ)
    (ew : Bool)
    (h : ∃ x ∈ maskFilter f.idx_fit (ext.computeSaxs f.q f.populations params),
      x ≤ 0) :
    evaluate ext f params ew = none := by
  obtain ⟨x, hx, hle⟩ := h
  simp only [evaluate]
  have hn : npLog ext.lg x = none := by rw [npLog, if_neg (not_lt.mpr hle)]
  rw [allSome_of_mem_none _ (List.mem_map.mpr ⟨x, hx, hn⟩)]
  rfl

/-- Witness for the corrected C6 at a concrete negative modeled
intensity. -/
theorem claim_C6_witness : evaluate extNeg fNeg [] false = none :=
  claim_C6 extNeg fNeg [] false ⟨-1, by decide, by decide⟩

/-- Counterexample to C6 as stated: on a fit-mask point with modeled
intensity `-1`, the source's `evaluate` returns the poisoned `none`, while
the clamped objective the claim describes returns a value. -/
theorem claim_C6_counterexample :
    evaluate extNeg fNeg [] true = none ∧
      (evaluate_clamped extNeg fNeg [] true).isSome = true := ⟨rfl, rfl⟩

/-! ## Peak-seeding lemmas -/

theorem pkStep_eq (ext : Extern) (f : SaxsFitter) (n : Nat) (pk_idx : List Nat)
    (d : ParamDict ℚ) (c : Nat) (idx : Nat) :
    pkStep ext f n pk_idx (d, c) idx =
      if c < n then (pkPush ext f pk_idx d idx, c + 1) else (d, c) := rfl

theorem pkFold_stop (ext : Extern) (f : SaxsFitter) (n : Nat) (pk_idx : List Nat) :
    ∀ (l : List Nat) (d : ParamDict ℚ) (c : Nat), n ≤ c →
      l.foldl (pkStep ext f n pk_idx) (d, c) = (d, c)
  | [], _, _, _ => rfl
  | idx :: l, d, c, h => by
    rw [List.foldl_cons, pkStep_eq, if_neg (not_lt.mpr h),
      pkFold_stop ext f n pk_idx l d c h]

theorem pkFold_take (ext : Extern) (f : SaxsFitter) (n : Nat) (pk_idx : List Nat) :
    ∀ (l : List Nat) (d : ParamDict ℚ) (c : Nat),
      (l.foldl (pkStep ext f n pk_idx) (d, c)).1 =
        (l.take (n - c)).foldl (pkPush ext f pk_idx) d
  | [], d, c => by simp
  | idx :: l, d, c => by
    by_cases h : c < n
    · rw [List.foldl_cons, pkStep_eq, if_pos h,
        pkFold_take ext f n pk_idx l (pkPush ext f pk_idx d idx) (c + 1)]
      have hs : n - c = (n - (c + 1)) + 1 := by omega
      rw [hs, List.take_succ_cons, List.foldl_cons]
    · rw [List.foldl_cons, pkStep_eq, if_neg h,
        pkFold_stop ext f n pk_idx l d c (not_lt.mp h)]
      have hz : n - c = 0 := by omega
      rw [hz, List.take_zero]
      rfl

theorem lookupA_pkPush_q (ext : Extern) (f : SaxsFitter) (pk_idx : List Nat)
    (d : ParamDict ℚ) (idx : Nat) :
    lookupA "q_pkcenter" (pkPush ext f pk_idx d idx) =
      (lookupA "q_pkcenter" d).map
        (fun cur => cur ++ [f.q.getD (pk_idx.getD idx 0) 0]) := by
  rw [pkPush, lookupA_appendKey_ne _ (by decide),
    lookupA_appendKey_ne _ (by decide), lookupA_appendKey_self]

theorem lookupA_pkPush_I (ext : Extern) (f : SaxsFitter) (pk_idx : List Nat)
    (d : ParamDict ℚ) (idx : Nat) :
    lookupA "I_pkcenter" (pkPush ext f pk_idx d idx) =
      (lookupA "I_pkcenter" d).map
        (fun cur => cur ++ [f.I.getD (pk_idx.getD idx 0) 0 * (1/10)]) := by
  rw [pkPush, lookupA_appendKey_ne _ (by decide), lookupA_appendKey_self,
    lookupA_appendKey_ne _ (by decide)]

theorem lookupA_pkFold_q (ext : Extern) (f : SaxsFitter) (pk_idx : List Nat) :
    ∀ (l : List Nat) (d : ParamDict ℚ),
      lookupA "q_pkcenter" (l.foldl (pkPush ext f pk_idx) d) =
        (lookupA "q_pkcenter" d).map
          (fun cur => cur ++ l.map (fun idx => f.q.getD (pk_idx.getD idx 0) 0))
  | [], d => by simp
  | idx :: l, d => by
    rw [List.foldl_cons, lookupA_pkFold_q ext f pk_idx l (pkPush ext f pk_idx d idx),
      lookupA_pkPush_q, Option.map_map]
    cases lookupA "q_pkcenter" d <;> simp

theorem lookupA_pkFold_I (ext : Extern) (f : SaxsFitter) (pk_idx : List Nat) :
    ∀ (l : List Nat) (d : ParamDict ℚ),
      lookupA "I_pkcenter" (l.foldl (pkPush ext f pk_idx) d) =
        (lookupA "I_pkcenter" d).map
          (fun cur => cur ++ l.map
            (fun idx => f.I.getD (pk_idx.getD idx 0) 0 * (1/10)))
  | [], d => by simp
  | idx :: l, d => by
    rw [List.foldl_cons, lookupA_pkFold_I ext f pk_idx l (pkPush ext f pk_idx d idx),
      lookupA_pkPush_I, Option.map_map]
    cases lookupA "I_pkcenter" d <;> simp

theorem lookupA_pkReset_q (params : ParamDict ℚ) :
    lookupA "q_pkcenter" (setKey (setKey (setKey params "q_pkcenter" [])
      "I_pkcenter" []) "pk_hwhm" ([] : List ℚ)) = some [] := by
  rw [lookupA_setKey_ne _ (by decide), lookupA_setKey_ne _ (by decide),
    lookupA_setKey_self]

theorem lookupA_pkReset_I (params : ParamDict ℚ) :
    lookupA "I_pkcenter" (setKey (setKey (setKey params "q_pkcenter" [])
      "I_pkcenter" []) "pk_hwhm" ([] : List ℚ)) = some [] := by
  rw [lookupA_setKey_ne _ (by decide), lookupA_setKey_self]

theorem argsortAsc_sorted (vals : List ℚ) :
    (argsortAsc vals).Sorted (fun a b => vals.getD a 0 ≤ vals.getD b 0) := by
  haveI ht : IsTotal Nat (fun a b => vals.getD a 0 ≤ vals.getD b 0) :=
    ⟨fun _ _ => le_total _ _⟩
  haveI htr : IsTrans Nat (fun a b => vals.getD a 0 ≤ vals.getD b 0) :=
    ⟨fun _ _ _ hab hbc => le_trans hab hbc⟩
  rw [argsortAsc]
  exact List.sorted_insertionSort _ _

theorem argsortDesc_sorted (vals : List ℚ) :
    ((argsortDesc vals).map (fun c => vals.getD c 0)).Pairwise
      (fun a b => b ≤ a) := by
  rw [argsortDesc, List.map_reverse, List.pairwise_reverse, List.pairwise_map]
  exact argsortAsc_sorted vals

theorem argsortDesc_length (vals : List ℚ) :
    (argsortDesc vals).length = vals.length := by
  rw [argsortDesc, List.length_reverse, argsortAsc, List.length_insertionSort,
    List.length_range]

/-! ## Claim C9 -/

/-- C9, corrected: the confidence order is non-increasing, not strictly
descending (ties are processed in an arbitrary order). Whenever
`estimate_peak_params` succeeds on a spec expecting `n > 0` diffraction
peaks, the seeded candidate order — the first `min(n, #candidates)`
entries of the descending argsort of the window-scan confidences — has
non-increasing confidences, and the result binds `q_pkcenter` to the
spectrum's `q` at each seeded candidate's index and `I_pkcenter` to
exactly one tenth of the measured intensity there, in that order. -/
theorem estimate_peak_params_ok_form (ext : Extern) (f : SaxsFitter)
    (params0 : Option (ParamDict ℚ)) (n : Nat) (r : ParamDict ℚ)
    (hn : lookupA "diffraction_peaks" f.populations = some n) (hn0 : n ≠ 0)
    (hr : estimate_peak_params ext f params0 = Except.ok r) :
    ∃ p0, r = ((argsortDesc (ext.peaksByWindow f.q f.I 20 0).2).foldl
        (pkStep ext f n (ext.peaksByWindow f.q f.I 20 0).1)
        (setKey (setKey (setKey p0 "q_pkcenter" []) "I_pkcenter" [])
          "pk_hwhm" [], 0)).1 := by
  cases params0 with
  | none =>
    simp only [estimate_peak_params] at hr
    cases hdp : default_params f.populations with
    | error e => rw [hdp] at hr; simp at hr
    | ok p0 =>
      rw [hdp] at hr
      simp only [ex_bind_ok] at hr
      rw [show popLookup f.populations "diffraction_peaks" = Except.ok n from
        by rw [popLookup, hn]] at hr
      simp only [ex_bind_ok] at hr
      rw [if_pos hn0] at hr
      simp only [ex_pure_eq_ok, Except.ok.injEq] at hr
      exact ⟨p0, hr.symm⟩
  | some ps =>
    simp only [estimate_peak_params, ex_pure_eq_ok, ex_bind_ok] at hr
    rw [show popLookup f.populations "diffraction_peaks" = Except.ok n from
      by rw [popLookup, hn]] at hr
    simp only [ex_bind_ok] at hr
    rw [if_pos hn0] at hr
    simp only [ex_pure_eq_ok, Except.ok.injEq] at hr
    exact ⟨ps, hr.symm⟩

theorem claim_C9 (ext : Extern) (f : SaxsFitter) (params0 : Option (ParamDict ℚ))
    (n : Nat) (r : ParamDict ℚ)
    (hn : lookupA "diffraction_peaks" f.populations = some n)
    (hn0 : n ≠ 0)
    (hr : estimate_peak_params ext f params0 = Except.ok r) :
    (((argsortDesc (ext.peaksByWindow f.q f.I 20 0).2).take n).map
        (fun c => (ext.peaksByWindow f.q f.I 20 0).2.getD c 0)).Pairwise
      (fun a b => b ≤ a) ∧
    ((argsortDesc (ext.peaksByWindow f.q f.I 20 0).2).take n).length =
      min n (ext.peaksByWindow f.q f.I 20 0).2.length ∧
    lookupA "q_pkcenter" r =
      some (((argsortDesc (ext.peaksByWindow f.q f.I 20 0).2).take n).map
        (fun idx => f.q.getD ((ext.peaksByWindow f.q f.I 20 0).1.getD idx 0) 0)) ∧
    lookupA "I_pkcenter" r =
      some (((argsortDesc (ext.peaksByWindow f.q f.I 20 0).2).take n).map
        (fun idx => f.I.getD ((ext.peaksByWindow f.q f.I 20 0).1.getD idx 0) 0
          * (1/10))) := by
  obtain ⟨p0, hform⟩ := estimate_peak_params_ok_form ext f params0 n r hn hn0 hr
  refine ⟨?_, ?_, ?_, ?_⟩
  · rw [List.map_take]
    exact (argsortDesc_sorted _).sublist (List.take_sublist _ _)
  · rw [List.length_take, argsortDesc_length]
  · rw [hform, pkFold_take, Nat.sub_zero, lookupA_pkFold_q, lookupA_pkReset_q]
    simp
  · rw [hform, pkFold_take, Nat.sub_zero, lookupA_pkFold_I, lookupA_pkReset_I]
    simp

/-- Witness for the corrected C9: three candidates with distinct
confidences, two peaks expected; the two highest-confidence candidates are
seeded in descending order. -/
theorem claim_C9_witness :
    (((argsortDesc (extPk2.peaksByWindow fPk2.q fPk2.I 20 0).2).take 2).map
        (fun c => (extPk2.peaksByWindow fPk2.q fPk2.I 20 0).2.getD c 0)).Pairwise
      (fun a b => b ≤ a) ∧
    ((argsortDesc (extPk2.peaksByWindow fPk2.q fPk2.I 20 0).2).take 2).length =
      min 2 (extPk2.peaksByWindow fPk2.q fPk2.I 20 0).2.length ∧
    lookupA "q_pkcenter"
        [("I0_floor", ([0] : List ℚ)), ("q_pkcenter", [3, 2]),
         ("I_pkcenter", [30 * (1/10), 20 * (1/10)]),
         ("pk_hwhm", [3 * (1/2), 3 * (1/2)])] =
      some (((argsortDesc (extPk2.peaksByWindow fPk2.q fPk2.I 20 0).2).take 2).map
        (fun idx =>
          fPk2.q.getD ((extPk2.peaksByWindow fPk2.q fPk2.I 20 0).1.getD idx 0) 0)) ∧
    lookupA "I_pkcenter"
        [("I0_floor", ([0] : List ℚ)), ("q_pkcenter", [3, 2]),
         ("I_pkcenter", [30 * (1/10), 20 * (1/10)]),
         ("pk_hwhm", [3 * (1/2), 3 * (1/2)])] =
      some (((argsortDesc (extPk2.peaksByWindow fPk2.q fPk2.I 20 0).2).take 2).map
        (fun idx =>
          fPk2.I.getD ((extPk2.peaksByWindow fPk2.q fPk2.I 20 0).1.getD idx 0) 0
            * (1/10))) :=
  claim_C9 extPk2 fPk2 (some [("I0_floor", [0])]) 2
    [("I0_floor", [0]), ("q_pkcenter", [3, 2]),
     ("I_pkcenter", [30 * (1/10), 20 * (1/10)]),
     ("pk_hwhm", [3 * (1/2), 3 * (1/2)])]
    (by decide) (by decide) rfl

/-- Counterexample to C9 as stated: with two candidates of equal (tied)
confidence and two peaks expected, both candidates are seeded — the first
conjunct shows the concrete seeded dict — but the processed confidence
sequence is not strictly descending. -/
theorem claim_C9_counterexample :
    estimate_peak_params extTie fTie (some [("I0_floor", [0])]) =
      Except.ok [("I0_floor", [0]), ("q_pkcenter", [2, 1]),
        ("I_pkcenter", [3 * (1/10), 2 * (1/10)]),
        ("pk_hwhm", [3 * (1/2), 3 * (1/2)])] ∧
    ¬ ((((argsortDesc (extTie.peaksByWindow fTie.q fTie.I 20 0).2).take 2).map
        (fun c => (extTie.peaksByWindow fTie.q fTie.I 20 0).2.getD c 0)).Pairwise
      (fun a b => b < a)) := ⟨rfl, by decide⟩

end Saxskit
